import Mathlib

/-!
# Verification of the dealflow bot (src/main.py)

Shallow embedding of the decision logic of `src/main.py`:

* `extract_company_info` — the text extractor (regex search and substitution
  specialised to the concrete patterns of the source);
* `process_company`, `check_org_in_list`, `get_stage_name`,
  `get_list_entry_details` — the reconciliation engine, written over an
  abstract CRM client whose operations may fail (Python exceptions from
  `requests` become `Except` values) and thread an abstract state;
* `detClient` — a deterministic in-memory CRM state used to reason about
  successive invocations (search semantics of the external CRM are modelled
  from the spec, which specifies the collaborator only at its interface);
* `get_deals_needing_nudge` — the staleness engine, over an environment of
  read-only CRM responses, an abstract ISO-timestamp parser and a clock.

Machine strings are Lean `String`s (the source operates on ASCII and on the
literal byte sequences present in the file, reproduced here verbatim,
including the file's own mojibake characters); Python `datetime` arithmetic
is modelled with integers counting seconds, `timedelta.days` being floor
division by 86400.
-/

/-! ## Python string primitives used by the source -/

/-- Python substring test `needle in hay` on lists of characters. -/
def listContains (needle : List Char) : List Char → Bool
  | [] => needle.isEmpty
  | c :: t => needle.isPrefixOf (c :: t) || listContains needle t

/-- Python `str.lower()` (ASCII model, applied character-wise). -/
def pyLower (s : String) : String :=
  (s.toList.map Char.toLower).asString

/-- Case-insensitive containment `a.lower() in b.lower()` (argument order:
`strContainsCI hay needle`). -/
def strContainsCI (hay needle : String) : Bool :=
  listContains (pyLower needle).toList (pyLower hay).toList

/-- Case-sensitive containment `needle in hay`. -/
def strContains (hay needle : String) : Bool :=
  listContains needle.toList hay.toList

/-- Strip characters satisfying `p` from both ends of a character list. -/
def stripListPred (p : Char → Bool) (l : List Char) : List Char :=
  ((l.dropWhile p).reverse.dropWhile p).reverse

/-- Strip characters satisfying `p` from both ends of a string. -/
def stripPred (p : Char → Bool) (s : String) : String :=
  (stripListPred p s.toList).asString

/-- Python `str.strip()` (ASCII whitespace model). -/
def pyStrip (s : String) : String :=
  stripPred Char.isWhitespace s

/-- The character set of the source's `strip(' -â€“â€”:/')` call — the file's
literal bytes decode to exactly these characters. -/
def nameStripChars : List Char :=
  [' ', '-', 'â', '€', '“', '”', ':', '/']

/-- The source's final `company_name.strip(' -â€“â€”:/')`. -/
def stripNamePunct (s : String) : String :=
  stripPred (fun c => nameStripChars.contains c) s

/-- Python `str.title()` on a character list: a character is uppercased when
the previous character is not a letter, lowercased otherwise (ASCII model). -/
def pyTitleList : List Char → Bool → List Char
  | [], _ => []
  | c :: t, prevAlpha =>
    (if prevAlpha then c.toLower else c.toUpper) :: pyTitleList t c.isAlpha

/-- Python `str.title()`. -/
def pyTitle (s : String) : String :=
  (pyTitleList s.toList false).asString

/-- Python `s.split(sep)[0]`: the characters before the first occurrence of
`sep`. -/
def splitHead (sep : Char) (s : String) : String :=
  (s.toList.takeWhile (fun c => c ≠ sep)).asString

/-! ## The regex character classes of `extract_company_info` -/

/-- `[a-zA-Z0-9-]`, the first host-label class of both patterns. -/
def isHostChar1 (c : Char) : Bool :=
  c.isAlphanum || c = '-'

/-- `[a-zA-Z0-9.-]`, the tail class of the URL pattern. -/
def isHostChar2 (c : Char) : Bool :=
  c.isAlphanum || c = '-' || c = '.'

/-- Regex `\w` (ASCII model), used for `\b` word boundaries. -/
def isWordChar (c : Char) : Bool :=
  c.isAlphanum || c = '_'

/-- Whether the character left of the current position is a word character
(`none` at the start of the text). -/
def wordOpt : Option Char → Bool
  | none => false
  | some c => isWordChar c

/-! ## The URL pattern `https?://(?:www\.)?([a-zA-Z0-9-]+\.[a-zA-Z0-9.-]+)` -/

/-- Consume the scheme `https?://` at the head of the list, `https` tried
first as the greedy `s?` does. -/
def schemeSplit (l : List Char) : Option (List Char) :=
  if l.take 8 = "https://".toList then some (l.drop 8)
  else if l.take 7 = "http://".toList then some (l.drop 7)
  else none

/-- Match the capture group `[a-zA-Z0-9-]+\.[a-zA-Z0-9.-]+` at the head of
the list and return the captured characters.  Both `+`s are greedy; the
first class excludes `.`, so backtracking cannot produce a different
match. -/
def hostParse (l : List Char) : Option (List Char) :=
  let r1 := l.takeWhile isHostChar1
  if r1.isEmpty then none
  else
    match l.drop r1.length with
    | '.' :: rest2 =>
      let r2 := rest2.takeWhile isHostChar2
      if r2.isEmpty then none else some (r1 ++ '.' :: r2)
    | _ => none

/-- Try the whole URL pattern at the head of the list: scheme, then the
greedy optional `www.` (with backtracking when the host fails after it),
then the capture group. -/
def tryUrl (l : List Char) : Option (List Char) :=
  match schemeSplit l with
  | none => none
  | some rest =>
    if rest.take 4 = "www.".toList then
      match hostParse (rest.drop 4) with
      | some g => some g
      | none => hostParse rest
    else hostParse rest

/-- `re.search` of the URL pattern: leftmost position whose match attempt
succeeds. -/
def urlSearchList : List Char → Option (List Char)
  | [] => none
  | c :: t =>
    match tryUrl (c :: t) with
    | some g => some g
    | none => urlSearchList t

/-- `re.search(url_pattern, text)`, returning group 1. -/
def urlSearch (s : String) : Option String :=
  (urlSearchList s.toList).map List.asString

/-! ## The bare-domain pattern
`\b([a-zA-Z0-9-]+\.(?:com|io|co|ai|org|net|app|vc|xyz|tech|dev))\b` -/

/-- The TLD alternation, in the source's order (tried left to right). -/
def tldList : List (List Char) :=
  ["com".toList, "io".toList, "co".toList, "ai".toList, "org".toList,
   "net".toList, "app".toList, "vc".toList, "xyz".toList, "tech".toList,
   "dev".toList]

/-- Try each TLD alternative in order against `l`; the trailing `\b`
requires the character after the alternative (if any) to be a non-word
character.  Returns the matched TLD. -/
def tldMatch (l : List Char) : List (List Char) → Option (List Char)
  | [] => none
  | tld :: rest =>
    if l.take tld.length = tld ∧ !wordOpt (l.get? tld.length) then some tld
    else tldMatch l rest

/-- Try the bare-domain pattern at the head of `l`, `prev` being the
character before the current position (for the leading `\b`). -/
def tryDomain (prev : Option Char) (l : List Char) : Option (List Char) :=
  match l with
  | [] => none
  | c :: _ =>
    if wordOpt prev = isWordChar c then none
    else
      let r1 := l.takeWhile isHostChar1
      if r1.isEmpty then none
      else
        match l.drop r1.length with
        | '.' :: rest2 =>
          match tldMatch rest2 tldList with
          | some tld => some (r1 ++ '.' :: tld)
          | none => none
        | _ => none

/-- `re.search` of the bare-domain pattern, tracking the previous character
for the word boundary. -/
def domainSearchList (prev : Option Char) : List Char → Option (List Char)
  | [] => none
  | c :: t =>
    match tryDomain prev (c :: t) with
    | some g => some g
    | none => domainSearchList (some c) t

/-- `re.search(domain_pattern, text)`, returning group 1. -/
def domainSearch (s : String) : Option String :=
  (domainSearchList none s.toList).map List.asString

/-! ## The three `re.sub` cleanups of `extract_company_info` -/

/-- Length consumed by `https?://(?:www\.)?` at the head of `l`, if it
matches. -/
def schemeSubLen (l : List Char) : Option Nat :=
  match schemeSplit l with
  | none => none
  | some rest =>
    if rest.take 4 = "www.".toList then some (l.length - rest.length + 4)
    else some (l.length - rest.length)

/-- `re.sub(r'https?://(?:www\.)?', '', ·)`: delete every occurrence,
scanning left to right (fuelled recursion; the fuel is the input length,
each step consumes at least one character). -/
def subSchemeGo : Nat → List Char → List Char
  | 0, l => l
  | _ + 1, [] => []
  | fuel + 1, c :: t =>
    match schemeSubLen (c :: t) with
    | some k => subSchemeGo fuel (List.drop (k - 1) t)
    | none => c :: subSchemeGo fuel t

/-- The first cleanup substitution of the source. -/
def subScheme (s : String) : String :=
  (subSchemeGo s.toList.length s.toList).asString

/-- `re.sub(r'\([^)]*\)', '', ·)`: delete parenthetical asides (a `(` with
no later `)` does not match). -/
def subParenGo : Nat → List Char → List Char
  | 0, l => l
  | _ + 1, [] => []
  | fuel + 1, c :: t =>
    if c = '(' ∧ t.contains ')' then
      subParenGo fuel ((t.dropWhile (fun c => c ≠ ')')).drop 1)
    else
      c :: subParenGo fuel t

/-- The second cleanup substitution of the source. -/
def subParen (s : String) : String :=
  (subParenGo s.toList.length s.toList).asString

/-- The stop-word alternation `missed|miss|missing|we|this|one|was|a`, in
the source's order. -/
def stopWords : List (List Char) :=
  ["missed".toList, "miss".toList, "missing".toList, "we".toList,
   "this".toList, "one".toList, "was".toList, "a".toList]

/-- Try each stop word in order at the head of `l` (case-insensitively,
the source passes `re.IGNORECASE`); the trailing `\b` requires the next
character to be a non-word character.  Returns the matched length. -/
def stopMatch (l : List Char) : List (List Char) → Option Nat
  | [] => none
  | w :: rest =>
    if (l.take w.length).map Char.toLower = w ∧ !wordOpt (l.get? w.length)
    then some w.length
    else stopMatch l rest

/-- `re.sub(r'\b(missed|miss|missing|we|this|one|was|a)\b', '', ·,
flags=re.IGNORECASE)`.  `prev` is the original character before the current
scan position, for the leading `\b` (every alternative starts and ends with
a word character). -/
def subStopGo : Nat → Option Char → List Char → List Char
  | 0, _, l => l
  | _ + 1, _, [] => []
  | fuel + 1, prev, c :: t =>
    match if wordOpt prev then none else stopMatch (c :: t) stopWords with
    | some k =>
      subStopGo fuel ((c :: t).get? (k - 1)) (List.drop (k - 1) t)
    | none => c :: subStopGo fuel (some c) t

/-- The third cleanup substitution of the source. -/
def subStop (s : String) : String :=
  (subStopGo s.toList.length none s.toList).asString

/-! ## `extract_company_info` (src/main.py lines 171–202) -/

/-- The cleaned company name: `text.strip()` followed by the three `re.sub`
calls and the final `strip(' -â€“â€”:/')`. -/
def cleanCompanyName (text : String) : String :=
  stripNamePunct (subStop (subParen (subScheme (pyStrip text))))

/-- `extract_company_info(text)`: returns `(company_name, domain)`. -/
def extract_company_info (text : String) : String × Option String :=
  let domain0 : Option String :=
    match urlSearch text with
    | some g => some g
    | none => domainSearch text
  let name := cleanCompanyName text
  match domain0 with
  | some d =>
    if d ≠ "" then
      let d1 := splitHead '/' d
      let name1 :=
        if name = "" ∨ name = d1 then pyTitle (splitHead '.' d1) else name
      (name1, some d1)
    else (name, some d)
  | none => (name, none)

example : extract_company_info "we love Bananas" = ("love Bananas", none) := by
  decide

example : extract_company_info "https://acme.com" = ("Acme", some "acme.com") := by
  decide

example : extract_company_info "https://acme.com/x" =
    ("acme.com/x", some "acme.com") := by
  decide

example : extract_company_info "Acme acme.com" = ("Acme acme.com", some "acme.com") := by
  decide

example : extract_company_info "https://www.foo.io we missed this one" =
    ("Foo", some "foo.io") := by
  decide

/-! ## Python values of Affinity field-value payloads

`field_value["value"]` in the source is `None`, an `int`, a `str`, or a
dict; a dict is only ever inspected for its `"text"` key or stringified. -/

/-- A Python value as it occurs in a `value` slot of a field value. -/
inductive AVal where
  /-- Python `None`. -/
  | anone : AVal
  /-- A Python `int`. -/
  | aint (n : Int) : AVal
  /-- A Python `str`. -/
  | astr (s : String) : AVal
  /-- A dict containing the key `"text"` mapped to the string `t`. -/
  | adictText (t : String) : AVal
  /-- Any other dict: `r` is its `str()` rendering, `truthy` whether it is
  non-empty. -/
  | adictOther (r : String) (truthy : Bool) : AVal
deriving DecidableEq

/-- Python truthiness of an `AVal`. -/
def avalTruthy : AVal → Bool
  | .anone => false
  | .aint n => n != 0
  | .astr s => s != ""
  | .adictText _ => true
  | .adictOther _ b => b

/-- Python `str()` of an `AVal` (the `adictText` case never reaches `str()`
in the source, which returns its `"text"` entry first). -/
def pyStr : AVal → String
  | .anone => "None"
  | .aint n => toString n
  | .astr s => s
  | .adictText t => "\x7b\x27text\x27: \x27" ++ t ++ "\x27\x7d"
  | .adictOther r _ => r

/-- Python truthiness of an optional string (`None` and `""` are falsy). -/
def optTruthy : Option String → Bool
  | none => false
  | some s => s != ""

/-! ## CRM data model (src/main.py data shapes) -/

/-- An organization as returned by the Affinity search or create calls. -/
structure Org where
  id : Nat
  name : String
  domain : Option String
deriving DecidableEq

/-- A list entry (PipelineEntry) linking an organization to a list. -/
structure ListEntry where
  id : Nat
  list_id : Nat
  entity_id : Nat
  created_at : Option String
deriving DecidableEq

/-- A dropdown option of a list field. -/
structure DropOpt where
  id : Int
  text : String
deriving DecidableEq

/-- A list field of the list schema. -/
structure CField where
  id : Nat
  name : String
  dropdown_options : List DropOpt
deriving DecidableEq

/-- A field value row. -/
structure FieldValue where
  field_id : Nat
  value : AVal
  updated_at : Option String
  created_at : Option String
deriving DecidableEq

/-- An organization as returned by `get_organization`, including its list
memberships. -/
structure OrgDetail where
  id : Nat
  name : String
  domain : Option String
  list_entries : List ListEntry
deriving DecidableEq

/-- A person record, for owner-name resolution. -/
structure Person where
  first_name : String
  last_name : String
deriving DecidableEq

/-! ## Constants of src/main.py (lines 31–50) -/

/-- `STATUS_FIELD_ID = 4927710`. -/
def STATUS_FIELD_ID : Nat := 4927710

/-- `OWNERS_FIELD_ID = 4927712`. -/
def OWNERS_FIELD_ID : Nat := 4927712

/-- `PASS_REASON_FIELD_ID = 4944316`. -/
def PASS_REASON_FIELD_ID : Nat := 4944316

/-- `MISSED_STATUS_VALUE_ID = 20689035`. -/
def MISSED_STATUS_VALUE_ID : Int := 20689035

/-- `SLACK_TO_AFFINITY_PERSON`: Slack user id to Affinity person id. -/
def SLACK_TO_AFFINITY_PERSON : List (String × Int) :=
  [("U02SC43GEH4", 217635093), ("U03HP4WKP62", 217635937),
   ("U07S6CLHPL1", 217637423), ("U08840SFVN1", 217635950)]

/-- `STAGE_THRESHOLDS`: stage label to nudge threshold in days. -/
def STAGE_THRESHOLDS : List (String × Nat) :=
  [("First Meeting", 14), ("Engaged", 21), ("Need to Pass", 14),
   ("On Hold", 84)]

/-! ## The abstract CRM client

Every Affinity call of the source is a `requests` round trip that either
returns a JSON payload or raises; an operation is a function of an abstract
collaborator state `σ` returning the `Except` outcome together with the
successor state (a failing call may still have changed the CRM). -/

/-- An HTTP-level failure (`requests.exceptions.HTTPError`): the response
status code and body text. -/
structure HErr where
  status_code : Nat
  text : String
deriving DecidableEq

/-- The CRM collaborator interface consumed by the reconciliation engine
(`AffinityClient` plus the raw person fetch of
`get_owner_name_from_id`). -/
structure Client (σ : Type) where
  searchOrganization : String → σ → Except HErr (List Org) × σ
  getOrganization : Nat → σ → Except HErr OrgDetail × σ
  getListFields : Nat → σ → Except HErr (List CField) × σ
  getFieldValues : Nat → σ → Except HErr (List FieldValue) × σ
  getListEntryFieldValues : Nat → σ → Except HErr (List FieldValue) × σ
  addToList : Nat → Nat → σ → Except HErr ListEntry × σ
  createOrganization : String → Option String → σ → Except HErr Org × σ
  setFieldValue : Nat → Nat → Nat → AVal → σ → Except HErr AVal × σ
  getPerson : AVal → σ → Except HErr Person × σ

/-! ## `get_stage_name` (src/main.py lines 205–240) -/

/-- Python dict assignment `d[k] = v` on an association list: replace an
existing binding for `k` or append a new one. -/
def assocSet (l : List (Int × String)) (k : Int) (v : String) :
    List (Int × String) :=
  match l with
  | [] => [(k, v)]
  | (k1, v1) :: t => if k1 = k then (k, v) :: t else (k1, v1) :: assocSet t k v

/-- Build the dropdown decode table `stage_options` from a field's options
(later duplicate ids overwrite earlier ones, as Python dict assignment
does). -/
def buildOptions (init : List (Int × String)) (opts : List DropOpt) :
    List (Int × String) :=
  opts.foldl (fun acc o => assocSet acc o.id o.text) init

/-- The first field whose lowercased name is `stage`, `status` or
`deal stage` (the source's loop breaks at the first match). -/
def findStageField (fields : List CField) : Option CField :=
  fields.find? (fun f => ["stage", "status", "deal stage"].contains (pyLower f.name))

/-- Decode a stage field value: a dict with `"text"` yields the text, an
int present in the decode table yields its label, otherwise
`str(value) if value else "Not set"`. -/
def decodeStageValue (opts : List (Int × String)) (v : AVal) : String :=
  match v with
  | .adictText t => t
  | .aint n =>
    match opts.lookup n with
    | some label => label
    | none => if n != 0 then toString n else "Not set"
  | v =>
    if avalTruthy v then pyStr v else "Not set"

/-- The loop over the organization's field values: the first row for the
stage field is decoded; no row yields `"Not set"`. -/
def stageFromValues (fid : Nat) (opts : List (Int × String))
    (fvs : List FieldValue) : String :=
  match fvs.find? (fun fv => fv.field_id == fid) with
  | none => "Not set"
  | some fv => decodeStageValue opts fv.value

/-- `get_stage_name(organization_id, list_id)`: any failure degrades to
`"Unknown"`; a matching schema field with the falsy id `0` also yields
`"Unknown"` (`if not stage_field_id`). -/
def get_stage_name {σ : Type} (c : Client σ) (organization_id listId : Nat)
    (s : σ) : String × σ :=
  match c.getListFields listId s with
  | (.error _, s1) => ("Unknown", s1)
  | (.ok fields, s1) =>
    match findStageField fields with
    | none => ("Unknown", s1)
    | some f =>
      if f.id = 0 then ("Unknown", s1)
      else
        match c.getFieldValues organization_id s1 with
        | (.error _, s2) => ("Unknown", s2)
        | (.ok fvs, s2) =>
          (stageFromValues f.id (buildOptions [] f.dropdown_options) fvs, s2)

/-! ## `check_org_in_list` (src/main.py lines 243–254) -/

/-- `check_org_in_list(organization_id, list_id)`: any failure is caught
and reported as "not in the list". -/
def check_org_in_list {σ : Type} (c : Client σ) (organization_id listId : Nat)
    (s : σ) : (Bool × Option ListEntry) × σ :=
  match c.getOrganization organization_id s with
  | (.error _, s1) => ((false, none), s1)
  | (.ok org, s1) =>
    match org.list_entries.find? (fun e => e.list_id == listId) with
    | some entry => ((true, some entry), s1)
    | none => ((false, none), s1)

/-! ## `get_list_entry_details` (src/main.py lines 257–293) -/

/-- `get_owner_name_from_id(person_id)`: fetch the person and join the
names; any failure yields `None`. -/
def get_owner_name_from_id {σ : Type} (c : Client σ) (person_id : AVal)
    (s : σ) : Option String × σ :=
  match c.getPerson person_id s with
  | (.error _, s1) => (none, s1)
  | (.ok p, s1) => (some (pyStrip (p.first_name ++ " " ++ p.last_name)), s1)

/-- One iteration of the owners/pass-reason loop of
`get_list_entry_details`. -/
def ownerPassStep {σ : Type} (c : Client σ)
    (acc : (List String × List String) × σ) (fv : FieldValue) :
    (List String × List String) × σ :=
  match acc with
  | ((owners, passReasons), s) =>
    let ows :=
      if fv.field_id == OWNERS_FIELD_ID ∧ avalTruthy fv.value then
        match get_owner_name_from_id c fv.value s with
        | (some n, s1) =>
          if n ≠ "" then (owners ++ [n], s1) else (owners, s1)
        | (none, s1) => (owners, s1)
      else (owners, s)
    let passReasons1 :=
      if fv.field_id == PASS_REASON_FIELD_ID then
        match fv.value with
        | .adictText t => passReasons ++ [t]
        | v => if avalTruthy v then passReasons ++ [pyStr v] else passReasons
      else passReasons
    ((ows.1, passReasons1), ows.2)

/-- `get_list_entry_details(org_id, list_id)`: owner display names and pass
reasons of the organization's entry in the list; any failure yields
`([], [])`. -/
def get_list_entry_details {σ : Type} (c : Client σ) (org_id listId : Nat)
    (s : σ) : (List String × List String) × σ :=
  match c.getOrganization org_id s with
  | (.error _, s1) => (([], []), s1)
  | (.ok org, s1) =>
    match org.list_entries.find? (fun e => e.list_id == listId) with
    | none => (([], []), s1)
    | some entry =>
      match c.getListEntryFieldValues entry.id s1 with
      | (.error _, s2) => (([], []), s2)
      | (.ok fvs, s2) => fvs.foldl (ownerPassStep c) (([], []), s2)

/-! ## `process_company` (src/main.py lines 296–427) -/

/-- The result dict of `process_company` (`stage`/`company` keys are absent
on some branches). -/
structure PResult where
  status : String
  company : Option String
  stage : Option String
  message : String
deriving DecidableEq

/-- The composed message of the `exists` branch (the non-ASCII characters
reproduce the source file's literal bytes). -/
def existsMessage (orgName stage : String) (owners passReasons : List String) :
    String :=
  let m := "*" ++ orgName ++ "* is already in the deal pipeline.\nðŸ“Š Current stage: *"
    ++ stage ++ "*"
  let m := if owners.isEmpty then m
    else m ++ "\nðŸ‘¤ Owner: " ++ String.intercalate ", " owners
  if stage = "Passed" ∧ ¬passReasons.isEmpty then
    m ++ "\nâŒ Pass reason: " ++ String.intercalate ", " passReasons
  else m

/-- The `exists` result payload. -/
def existsResult (orgName stage : String) (owners passReasons : List String) :
    PResult :=
  ⟨"exists", some orgName, some stage, existsMessage orgName stage owners passReasons⟩

/-- The `added` result payload (normal lead). -/
def addedResult (orgName : String) : PResult :=
  ⟨"added", some orgName, none,
    "âœ… Added *" ++ orgName ++ "* to the deal pipeline as a new lead."⟩

/-- The `added` result payload after a successful missed-status set. -/
def addedMissedResult (orgName : String) : PResult :=
  ⟨"added", some orgName, none,
    "ðŸ˜¢ Added *" ++ orgName ++ "* to the deal pipeline as *Missed*."⟩

/-- The `created` result payload (normal lead). -/
def createdResult (orgName : String) : PResult :=
  ⟨"created", some orgName, none,
    "âœ… Created *" ++ orgName ++ "* and added to the deal pipeline as a new lead."⟩

/-- The `created` result payload after a successful missed-status set. -/
def createdMissedResult (orgName : String) : PResult :=
  ⟨"created", some orgName, none,
    "ðŸ˜¢ Created *" ++ orgName ++ "* and added to the deal pipeline as *Missed*."⟩

/-- The `error` result of the `except requests.exceptions.HTTPError`
handler, embedding status code and response text. -/
def httpErrorResult (e : HErr) : PResult :=
  ⟨"error", none, none,
    "âŒ Error processing company: " ++ toString e.status_code ++ " - " ++ e.text⟩

/-- `term = domain if domain else search_term`. -/
def termOf (search_term : String) (domain : Option String) : String :=
  match domain with
  | some d => if d = "" then search_term else d
  | none => search_term

/-- One iteration of the best-match loop: the domain test, then the name
test (both case-insensitive containment). -/
def orgMatches (search_term : String) (domain : Option String) (org : Org) :
    Bool :=
  (match domain, org.domain with
   | some d, some od => (d != "") && (od != "") && strContainsCI od d
   | _, _ => false)
  || strContainsCI org.name search_term

/-- The body of the best-match loop (lines 309–317): each candidate is
tested first by domain, then by name, either test selecting it (`break`). -/
def pickLoop (search_term : String) (domain : Option String) :
    List Org → Option Org
  | [] => none
  | o :: t =>
    if (match domain, o.domain with
        | some d, some od => (d != "") && (od != "") && strContainsCI od d
        | _, _ => false) then some o
    else if strContainsCI o.name search_term then some o
    else pickLoop search_term domain t

/-- The selection of `process_company` (lines 306–319): the loop, then the
`orgs[0]` fallback when it selected nothing (the loop body only runs when
`orgs` is non-empty, so `none` is only returned on an empty candidate
list). -/
def pickOrganization (orgs : List Org) (search_term : String)
    (domain : Option String) : Option Org :=
  match pickLoop search_term domain orgs with
  | some org => some org
  | none => orgs.head?

/-- The best-effort owner assignment after entry creation (`if
slack_user_id and slack_user_id in SLACK_TO_AFFINITY_PERSON`); a failure of
the set call is caught and ignored. -/
def setOwner {σ : Type} (c : Client σ) (orgId leId : Nat)
    (uid : Option String) (s : σ) : σ :=
  match uid with
  | none => s
  | some u =>
    if u = "" then s
    else
      match SLACK_TO_AFFINITY_PERSON.lookup u with
      | some pid => (c.setFieldValue OWNERS_FIELD_ID orgId leId (.aint pid) s).2
      | none => s

/-- `process_company(search_term, domain, is_missed, slack_user_id)` over
the abstract client, for the target list `listId`. -/
def process_company {σ : Type} (c : Client σ) (listId : Nat)
    (search_term : String) (domain : Option String) (is_missed : Bool)
    (slack_user_id : Option String) (s : σ) : PResult × σ :=
  match c.searchOrganization (termOf search_term domain) s with
  | (.error e, s1) => (httpErrorResult e, s1)
  | (.ok orgs, s1) =>
    match pickOrganization orgs search_term domain with
    | some org =>
      match check_org_in_list c org.id listId s1 with
      | ((true, _), s2) =>
        match get_stage_name c org.id listId s2 with
        | (stage, s3) =>
          match get_list_entry_details c org.id listId s3 with
          | ((owners, passReasons), s4) =>
            (existsResult org.name stage owners passReasons, s4)
      | ((false, _), s2) =>
        match c.addToList listId org.id s2 with
        | (.error e, s3) => (httpErrorResult e, s3)
        | (.ok le, s3) =>
          let s4 := setOwner c org.id le.id slack_user_id s3
          if is_missed then
            match c.setFieldValue STATUS_FIELD_ID org.id le.id
                (.aint MISSED_STATUS_VALUE_ID) s4 with
            | (.ok _, s5) => (addedMissedResult org.name, s5)
            | (.error _, s5) => (addedResult org.name, s5)
          else (addedResult org.name, s4)
    | none =>
      match c.createOrganization search_term domain s1 with
      | (.error e, s2) => (httpErrorResult e, s2)
      | (.ok norg, s2) =>
        match c.addToList listId norg.id s2 with
        | (.error e, s3) => (httpErrorResult e, s3)
        | (.ok le, s3) =>
          let s4 := setOwner c norg.id le.id slack_user_id s3
          if is_missed then
            match c.setFieldValue STATUS_FIELD_ID norg.id le.id
                (.aint MISSED_STATUS_VALUE_ID) s4 with
            | (.ok _, s5) => (createdMissedResult norg.name, s5)
            | (.error _, s5) => (createdResult norg.name, s5)
          else (createdResult norg.name, s4)

/-! ## A deterministic in-memory CRM

Used to reason about successive reconciliation calls against one CRM
state.  Mutating operations record their name in `trace`. -/

/-- The CRM state: organizations, list entries, field values per
organization and per list entry, the list schema, fresh-id counters, and a
trace of the mutating calls performed. -/
structure CrmState where
  orgs : List Org
  entries : List ListEntry
  orgFieldVals : List (Nat × List FieldValue)
  entryFieldVals : List (Nat × List FieldValue)
  listFields : List CField
  nextOrgId : Nat
  nextEntryId : Nat
  trace : List String
deriving DecidableEq

/-- Whether an organization is a hit for a search term: the term occurs in
its name or in its domain (case-insensitive). -/
def orgMatchesTerm (term : String) (o : Org) : Bool :=
  strContainsCI o.name term ||
    (match o.domain with
     | some d => strContainsCI d term
     | none => false)

/-- Modelled from the spec: the CRM's `searchOrganizations(term)` is an
external collaborator specified only at its interface (spec §6); per §4.2
it is a substring/term search, returning the organizations whose recorded
name or domain contains the term, in stored (relevance) order. -/
def detSearch (s : CrmState) (term : String) : List Org :=
  s.orgs.filter (orgMatchesTerm term)

/-- `get_organization`: the organization record together with its list
memberships. -/
def detOrgDetail (s : CrmState) (oid : Nat) : OrgDetail :=
  { id := oid
    name :=
      match s.orgs.find? (fun o => o.id == oid) with
      | some o => o.name
      | none => ""
    domain :=
      match s.orgs.find? (fun o => o.id == oid) with
      | some o => o.domain
      | none => none
    list_entries := s.entries.filter (fun e => e.entity_id == oid) }

/-- Append a field value under a key of an association list. -/
def assocAppendFV (l : List (Nat × List FieldValue)) (k : Nat)
    (fv : FieldValue) : List (Nat × List FieldValue) :=
  match l with
  | [] => [(k, [fv])]
  | (k1, vs) :: t =>
    if k1 = k then (k1, vs ++ [fv]) :: t else (k1, vs) :: assocAppendFV t k fv

/-- The deterministic client: reads never fail and leave the state
untouched; writes append and record themselves in the trace. -/
def detClient : Client CrmState where
  searchOrganization term s := (.ok (detSearch s term), s)
  getOrganization oid s := (.ok (detOrgDetail s oid), s)
  getListFields _ s := (.ok s.listFields, s)
  getFieldValues oid s := (.ok ((s.orgFieldVals.lookup oid).getD []), s)
  getListEntryFieldValues leid s := (.ok ((s.entryFieldVals.lookup leid).getD []), s)
  addToList lid oid s :=
    (.ok ⟨s.nextEntryId, lid, oid, none⟩,
     { s with entries := s.entries ++ [⟨s.nextEntryId, lid, oid, none⟩],
              nextEntryId := s.nextEntryId + 1,
              trace := s.trace ++ ["addToList"] })
  createOrganization name dom s :=
    (.ok ⟨s.nextOrgId, name, if optTruthy dom then dom else none⟩,
     { s with orgs := s.orgs ++ [⟨s.nextOrgId, name, if optTruthy dom then dom else none⟩],
              nextOrgId := s.nextOrgId + 1,
              trace := s.trace ++ ["createOrganization"] })
  setFieldValue fid _eid leid v s :=
    (.ok v,
     { s with entryFieldVals := assocAppendFV s.entryFieldVals leid ⟨fid, v, none, none⟩,
              trace := s.trace ++ ["setFieldValue"] })
  getPerson _ s := (.ok ⟨"", ""⟩, s)

/-! ## `get_deals_needing_nudge` (src/main.py lines 430–525)

The scan only performs CRM reads, so its collaborator is a record of
response values; `parseTs` models
`datetime.fromisoformat(ts.replace('Z', '+00:00'))` (`none` = the parse
raises), and `now` is `datetime.now(pytz.UTC)`, in seconds. -/

/-- The read-only environment of one staleness scan. -/
structure NudgeEnv where
  getListFields : Except HErr (List CField)
  getListEntries : Except HErr (List ListEntry)
  getEntryFieldValues : Nat → Except HErr (List FieldValue)
  getOrganization : Nat → Except HErr OrgDetail
  parseTs : String → Option Int
  now : Int

/-- A nudge candidate dict. -/
structure Nudge where
  org_id : Nat
  org_name : String
  status : String
  days_in_stage : Int
  week_text : String
  owners : List AVal
  link : String
deriving DecidableEq

/-- The schema scan of `get_deals_needing_nudge` (lines 439–446): no
`break`, so the last matching field wins and dropdown options accumulate
across all `status`/`stage` fields; `owners` is matched by exact lowercase
name. -/
def nudgeFieldScan (fields : List CField) :
    Option Nat × List (Int × String) × Option Nat :=
  fields.foldl
    (fun (acc : Option Nat × List (Int × String) × Option Nat) f =>
      if ["status", "stage"].contains (pyLower f.name) then
        (some f.id, buildOptions acc.2.1 f.dropdown_options, acc.2.2)
      else if pyLower f.name = "owners" then
        (acc.1, acc.2.1, some f.id)
      else acc)
    (none, [], none)

/-- Python `x or y` on optional strings (`""` is falsy). -/
def orOpt : Option String → Option String → Option String
  | some s, y => if s = "" then y else some s
  | none, y => y

/-- One iteration of the field-value loop (lines 470–483): a status row
updates the decoded status (when decodable) and always updates the
timestamp; an owners row with a truthy value is collected. -/
def nudgeFVStep (sfid : Nat) (opts : List (Int × String)) (ofid : Option Nat)
    (acc : Option String × Option String × List AVal) (fv : FieldValue) :
    Option String × Option String × List AVal :=
  let cs := acc.1
  let sua := acc.2.1
  let owners := acc.2.2
  if fv.field_id == sfid then
    let cs1 :=
      match fv.value with
      | .adictText t => some t
      | .aint n =>
        match opts.lookup n with
        | some label => some label
        | none => cs
      | _ => cs
    (cs1, orOpt fv.updated_at fv.created_at, owners)
  else if (match ofid with | some o => fv.field_id == o | none => false) then
    if avalTruthy fv.value then (cs, sua, owners ++ [fv.value]) else acc
  else acc

/-- The status-date computation (lines 489–496): parse the status
timestamp; on a falsy timestamp or a parse failure, fall back to the
entry's `created_at` — whose own parse failure (or absence) raises out of
the handler and aborts the scan. -/
def entryStatusDate (env : NudgeEnv) (entry : ListEntry)
    (sua : Option String) : Except Unit Int :=
  let fromCreated : Except Unit Int :=
    match entry.created_at with
    | none => .error ()
    | some ca =>
      match env.parseTs ca with
      | some t => .ok t
      | none => .error ()
  match sua with
  | some u =>
    if u = "" then fromCreated
    else
      match env.parseTs u with
      | some t => .ok t
      | none => fromCreated
  | none => fromCreated

/-- `f"{weeks_in_stage} week" + ("s" if weeks_in_stage != 1 else "")`. -/
def weekText (weeks : Int) : String :=
  toString weeks ++ " week" ++ (if weeks ≠ 1 then "s" else "")

/-- The nudge candidate dict built at lines 509–517. -/
def mkNudge (entry : ListEntry) (org : OrgDetail) (st : String) (days : Int)
    (owners : List AVal) : Nudge :=
  { org_id := entry.entity_id
    org_name := org.name
    status := st
    days_in_stage := days
    week_text := weekText (Int.fdiv days 7)
    owners := owners
    link := "https://overture.affinity.co/companies/" ++ toString entry.entity_id }

/-- Process one list entry (lines 458–519): `.error` aborts the whole scan
(an uncaught exception reaching the outer handler); `.ok none` contributes
nothing; `.ok (some n)` emits a candidate. -/
def processEntry (env : NudgeEnv) (sfid : Nat) (opts : List (Int × String))
    (ofid : Option Nat) (entry : ListEntry) : Except Unit (Option Nudge) :=
  match env.getEntryFieldValues entry.id with
  | .error _ => .error ()
  | .ok fvs =>
    let scan := fvs.foldl (nudgeFVStep sfid opts ofid) (none, none, [])
    match scan.1 with
    | none => .ok none
    | some st =>
      if st = "" then .ok none
      else
        match STAGE_THRESHOLDS.lookup st with
        | none => .ok none
        | some thr =>
          match entryStatusDate env entry scan.2.1 with
          | .error _ => .error ()
          | .ok t =>
            let days := Int.fdiv (env.now - t) 86400
            if (thr : Int) ≤ days then
              match env.getOrganization entry.entity_id with
              | .error _ => .ok none
              | .ok org => .ok (some (mkNudge entry org st days scan.2.2))
            else .ok none

/-- The entry loop, accumulating candidates until the end or an abort. -/
def nudgeLoop (env : NudgeEnv) (sfid : Nat) (opts : List (Int × String))
    (ofid : Option Nat) : List ListEntry → List Nudge → Except Unit (List Nudge)
  | [], acc => .ok acc
  | e :: rest, acc =>
    match processEntry env sfid opts ofid e with
    | .error _ => .error ()
    | .ok none => nudgeLoop env sfid opts ofid rest acc
    | .ok (some n) => nudgeLoop env sfid opts ofid rest (acc ++ [n])

/-- `get_deals_needing_nudge()`: the full scan; any exception reaching the
outer handler yields `[]`, as does a missing (or falsy) status field. -/
def get_deals_needing_nudge (env : NudgeEnv) : List Nudge :=
  match env.getListFields with
  | .error _ => []
  | .ok fields =>
    match nudgeFieldScan fields with
    | (sfido, opts, ofid) =>
      match sfido with
      | none => []
      | some sfid =>
        if sfid = 0 then []
        else
          match env.getListEntries with
          | .error _ => []
          | .ok entries =>
            match nudgeLoop env sfid opts ofid entries [] with
            | .ok l => l
            | .error _ => []

/-! ## General lemmas -/

/-- The loop of `pickOrganization` selects exactly the first candidate
satisfying the disjunction of the domain test and the name test. -/
theorem pickLoop_eq_find (search_term : String) (domain : Option String) :
    ∀ orgs : List Org,
      pickLoop search_term domain orgs = orgs.find? (orgMatches search_term domain)
  | [] => rfl
  | o :: t => by
    simp only [pickLoop, orgMatches, List.find?]
    by_cases hd : (match domain, o.domain with
        | some d, some od => (d != "") && (od != "") && strContainsCI od d
        | _, _ => false) = true
    · simp [hd]
    · by_cases hn : strContainsCI o.name search_term = true
      · simp [hd, hn]
      · simp [hd, hn, pickLoop_eq_find search_term domain t]

/-- A list all of whose elements fail `p` has no `find?` hit. -/
theorem find?_eq_none_of_all {α : Type} (p : α → Bool) :
    ∀ l : List α, (∀ x ∈ l, p x = false) → l.find? p = none
  | [], _ => rfl
  | a :: t, h => by
    have ha := h a (List.mem_cons_self a t)
    simp only [List.find?, ha]
    exact find?_eq_none_of_all p t (fun x hx => h x (List.mem_cons_of_mem a hx))

/-! ## Claim C4 — organization selection order -/

/-- C4 (counterexample): the claim says a domain match anywhere in the
candidate list takes priority over a name match earlier in the list.  On
the candidate list `[Acme Corp (bar.com), Zed (foo.io)]` with search term
`"acme"` and domain `"foo.io"`, the first candidate whose recorded domain
contains the domain is `Zed`, yet the loop selects `Acme Corp` by its name
test: the two tests are interleaved per candidate, not prioritised over
the whole list. -/
theorem C4_counterexample :
    pickOrganization
        [⟨1, "Acme Corp", some "bar.com"⟩, ⟨2, "Zed", some "foo.io"⟩]
        "acme" (some "foo.io")
      = some ⟨1, "Acme Corp", some "bar.com"⟩
    ∧ strContainsCI "bar.com" "foo.io" = false
    ∧ strContainsCI "foo.io" "foo.io" = true
    ∧ (⟨1, "Acme Corp", some "bar.com"⟩ : Org) ≠ ⟨2, "Zed", some "foo.io"⟩ := by
  decide

/-- C4 (amended): the selection loop scans candidates in list order and
selects the first candidate passing the domain test or the name test (the
two tests applied to each candidate in turn, so an earlier name-only match
wins over a later domain match); only when no candidate passes either test
is the first candidate selected. -/
theorem C4_amended (orgs : List Org) (st : String) (dom : Option String) :
    (∀ org, orgs.find? (orgMatches st dom) = some org →
      pickOrganization orgs st dom = some org)
    ∧ ((∀ o ∈ orgs, orgMatches st dom o = false) →
      pickOrganization orgs st dom = orgs.head?) := by
  constructor
  · intro org h
    simp only [pickOrganization, pickLoop_eq_find, h]
  · intro h
    simp only [pickOrganization, pickLoop_eq_find,
      find?_eq_none_of_all (orgMatches st dom) orgs h]

/-- C4 (witness for the amended theorem): both parts applied at concrete
candidate lists. -/
theorem C4_amended_witness :
    pickOrganization [⟨2, "Zed", some "foo.io"⟩, ⟨3, "Yod", some "foo.io"⟩]
        "acme" (some "foo.io") = some ⟨2, "Zed", some "foo.io"⟩
    ∧ pickOrganization [⟨4, "Blub", none⟩, ⟨5, "Glub", none⟩] "acme"
        (some "foo.io") = some ⟨4, "Blub", none⟩ :=
  ⟨(C4_amended [⟨2, "Zed", some "foo.io"⟩, ⟨3, "Yod", some "foo.io"⟩] "acme"
      (some "foo.io")).1 ⟨2, "Zed", some "foo.io"⟩ (by decide),
   (C4_amended [⟨4, "Blub", none⟩, ⟨5, "Glub", none⟩] "acme"
      (some "foo.io")).2 (by decide)⟩

/-! ## Claim C6 — `get_stage_name` sentinels -/

/-- C6: `get_stage_name` never propagates an exception (it is a total
function into `String` by construction); it returns `"Unknown"` when the
schema fetch fails, when no schema field is named (case-insensitively)
`stage`/`status`/`deal stage`, and when the value fetch fails; and it
returns `"Not set"` when the stage field carries no value — no value row
for the field, or a row whose value is `None`. -/
theorem C6_stage_sentinels {σ : Type} (c : Client σ) (oid lid : Nat) (s : σ) :
    (∀ e s1, c.getListFields lid s = (.error e, s1) →
      (get_stage_name c oid lid s).1 = "Unknown")
    ∧ (∀ fields s1, c.getListFields lid s = (.ok fields, s1) →
      findStageField fields = none →
      (get_stage_name c oid lid s).1 = "Unknown")
    ∧ (∀ fields s1 f e s2, c.getListFields lid s = (.ok fields, s1) →
      findStageField fields = some f → f.id ≠ 0 →
      c.getFieldValues oid s1 = (.error e, s2) →
      (get_stage_name c oid lid s).1 = "Unknown")
    ∧ (∀ fields s1 f fvs s2, c.getListFields lid s = (.ok fields, s1) →
      findStageField fields = some f → f.id ≠ 0 →
      c.getFieldValues oid s1 = (.ok fvs, s2) →
      fvs.find? (fun fv => fv.field_id == f.id) = none →
      (get_stage_name c oid lid s).1 = "Not set")
    ∧ (∀ fields s1 f fvs s2 fv, c.getListFields lid s = (.ok fields, s1) →
      findStageField fields = some f → f.id ≠ 0 →
      c.getFieldValues oid s1 = (.ok fvs, s2) →
      fvs.find? (fun fv2 => fv2.field_id == f.id) = some fv →
      fv.value = AVal.anone →
      (get_stage_name c oid lid s).1 = "Not set") := by
  refine ⟨?_, ?_, ?_, ?_, ?_⟩
  · intro e s1 h
    simp only [get_stage_name, h]
  · intro fields s1 h hf
    simp only [get_stage_name, h, hf]
  · intro fields s1 f e s2 h hf hid hv
    simp only [get_stage_name, h, hf, hid, if_false, hv]
  · intro fields s1 f fvs s2 h hf hid hv hfind
    simp only [get_stage_name, h, hf, hid, if_false, hv, stageFromValues, hfind]
  · intro fields s1 f fvs s2 fv h hf hid hv hfind hval
    simp [get_stage_name, h, hf, hid, if_false, hv, stageFromValues, hfind,
      hval, decodeStageValue, avalTruthy]

/-- C6 (witness clients): a schema with no stage/status field. -/
def c6Client : Client Unit where
  searchOrganization _ s := (.ok [], s)
  getOrganization _ s := (.error ⟨404, "nf"⟩, s)
  getListFields _ s := (.ok [⟨1, "Budget", []⟩], s)
  getFieldValues _ s := (.ok [], s)
  getListEntryFieldValues _ s := (.ok [], s)
  addToList lid oid s := (.ok ⟨1, lid, oid, none⟩, s)
  createOrganization n d s := (.ok ⟨1, n, d⟩, s)
  setFieldValue _ _ _ v s := (.ok v, s)
  getPerson _ s := (.ok ⟨"", ""⟩, s)

/-- C6 (witness clients): a schema with a `Stage` field but no value rows
for the organization. -/
def c6bClient : Client Unit :=
  { c6Client with
    getListFields := fun _ s => (.ok [⟨9, "Stage", [⟨5, "Engaged"⟩]⟩], s) }

/-- C6 (witness): the sentinel theorem applied at concrete clients —
missing schema field yields `"Unknown"`, missing value row yields
`"Not set"`. -/
theorem C6_stage_sentinels_witness :
    (get_stage_name c6Client 1 2 ()).1 = "Unknown"
    ∧ (get_stage_name c6bClient 1 2 ()).1 = "Not set" :=
  ⟨(C6_stage_sentinels c6Client 1 2 ()).2.1 [⟨1, "Budget", []⟩] () rfl (by decide),
   (C6_stage_sentinels c6bClient 1 2 ()).2.2.2.1 [⟨9, "Stage", [⟨5, "Engaged"⟩]⟩]
     () ⟨9, "Stage", [⟨5, "Engaged"⟩]⟩ [] () rfl (by decide) (by decide) rfl
     (by decide)⟩

/-! ## Claim C2 — error handling of `process_company` -/

/-- C2 (counterexample client): the search succeeds, but the
`get_organization` call made inside `check_org_in_list` raises an HTTP
failure; every other call succeeds. -/
def c2Client : Client Unit where
  searchOrganization _ s := (.ok [⟨1, "Acme", some "acme.com"⟩], s)
  getOrganization _ s := (.error ⟨500, "boom"⟩, s)
  getListFields _ s := (.ok [], s)
  getFieldValues _ s := (.ok [], s)
  getListEntryFieldValues _ s := (.ok [], s)
  addToList lid oid s := (.ok ⟨7, lid, oid, none⟩, s)
  createOrganization n d s := (.ok ⟨9, n, d⟩, s)
  setFieldValue _ _ _ v s := (.ok v, s)
  getPerson _ s := (.ok ⟨"", ""⟩, s)

/-- C2 (counterexample): an HTTP-level failure raised by the CRM during the
existence check does not abort the remaining steps and does not produce
`status = error`: `check_org_in_list` catches it and reports "not in the
list", after which the entry-creation step still runs and the call returns
`status = "added"`. -/
theorem C2_counterexample :
    (process_company c2Client 42 "Acme" (some "acme.com") false none ()).1.status
      = "added"
    ∧ ("added" : String) ≠ "error" := by
  decide

/-- C2 (amended): an HTTP failure raised by one of `process_company`'s own
direct CRM calls — the organization search, the entry creation
(`add_to_list`, on either branch), or the organization creation — aborts
the remaining steps and returns the `error` payload embedding the failure's
status code and response text (and nothing already applied is rolled back:
the state produced by the failing call is returned as is).  Failures inside
the helpers (`check_org_in_list`, `get_stage_name`,
`get_list_entry_details`) and the best-effort `set_field_value` calls are
caught locally and do not abort. -/
theorem C2_amended {σ : Type} (c : Client σ) (L : Nat) (st : String)
    (dom : Option String) (m : Bool) (uid : Option String) (s : σ) :
    (∀ e s1, c.searchOrganization (termOf st dom) s = (.error e, s1) →
      process_company c L st dom m uid s = (httpErrorResult e, s1))
    ∧ (∀ orgs s1 org en s2 e s3,
      c.searchOrganization (termOf st dom) s = (.ok orgs, s1) →
      pickOrganization orgs st dom = some org →
      check_org_in_list c org.id L s1 = ((false, en), s2) →
      c.addToList L org.id s2 = (.error e, s3) →
      process_company c L st dom m uid s = (httpErrorResult e, s3))
    ∧ (∀ orgs s1 e s2,
      c.searchOrganization (termOf st dom) s = (.ok orgs, s1) →
      pickOrganization orgs st dom = none →
      c.createOrganization st dom s1 = (.error e, s2) →
      process_company c L st dom m uid s = (httpErrorResult e, s2))
    ∧ (∀ orgs s1 norg s2 e s3,
      c.searchOrganization (termOf st dom) s = (.ok orgs, s1) →
      pickOrganization orgs st dom = none →
      c.createOrganization st dom s1 = (.ok norg, s2) →
      c.addToList L norg.id s2 = (.error e, s3) →
      process_company c L st dom m uid s = (httpErrorResult e, s3)) := by
  refine ⟨?_, ?_, ?_, ?_⟩
  · intro e s1 h
    simp only [process_company, h]
  · intro orgs s1 org en s2 e s3 h hpick hchk hadd
    simp only [process_company, h, hpick, hchk, hadd]
  · intro orgs s1 e s2 h hpick hcr
    simp only [process_company, h, hpick, hcr]
  · intro orgs s1 norg s2 e s3 h hpick hcr hadd
    simp only [process_company, h, hpick, hcr, hadd]

/-- C2 (witness client): the search itself fails. -/
def c2FailSearch : Client Unit :=
  { c2Client with
    searchOrganization := fun _ s => (.error ⟨500, "boom"⟩, s) }

/-- C2 (witness): the amended theorem applied at a concrete client whose
search call fails. -/
theorem C2_amended_witness :
    process_company c2FailSearch 42 "Acme" none false none ()
      = (httpErrorResult ⟨500, "boom"⟩, ()) :=
  (C2_amended c2FailSearch 42 "Acme" none false none ()).1 ⟨500, "boom"⟩ () rfl

/-! ## Claim C8 — extraction with no URL and no domain -/

/-- C8 (counterexample): `"we love Bananas"` contains no URL and no
recognizable domain (both searches fail), and its trimmed form is itself,
yet `extract_company_info` returns `"love Bananas"`: the stop-word
substitution removed the word `we`, so the company name is not the trimmed
input. -/
theorem C8_counterexample :
    urlSearch "we love Bananas" = none
    ∧ domainSearch "we love Bananas" = none
    ∧ pyStrip "we love Bananas" = "we love Bananas"
    ∧ extract_company_info "we love Bananas" = ("love Bananas", none)
    ∧ ("love Bananas" : String) ≠ "we love Bananas" := by
  decide

/-- C8 (amended): on input with no recognizable URL or domain,
`extract_company_info` returns `domain = none` and the trimmed input as
the company name, provided the trimmed input is also left unchanged by the
three cleanup substitutions (it contains no `http(s)://` occurrence, no
parenthetical aside, and no whole-word stop word) and by the final
punctuation strip (it does not begin or end with space, dash, colon,
slash, or the source's mojibake dash characters). -/
theorem C8_amended (text : String)
    (hu : urlSearch text = none) (hd : domainSearch text = none)
    (hs : subScheme (pyStrip text) = pyStrip text)
    (hp : subParen (pyStrip text) = pyStrip text)
    (hw : subStop (pyStrip text) = pyStrip text)
    (he : stripNamePunct (pyStrip text) = pyStrip text) :
    extract_company_info text = (pyStrip text, none) := by
  simp only [extract_company_info, cleanCompanyName, hu, hd, hs, hp, hw, he]

/-- C8 (witness): the amended theorem applied at `"Banana Republic"`. -/
theorem C8_amended_witness :
    extract_company_info "Banana Republic" = ("Banana Republic", none) :=
  C8_amended "Banana Republic" (by decide) (by decide) (by decide) (by decide)
    (by decide) (by decide)

/-! ## Shape of matched domains -/

/-- Every group captured by either pattern has the form
`label ++ "." ++ rest` with a non-empty first label drawn from
`[a-zA-Z0-9-]` and a non-empty rest drawn from `[a-zA-Z0-9.-]`. -/
def GoodGroup (g : List Char) : Prop :=
  ∃ r1 r2, g = r1 ++ '.' :: r2 ∧ r1 ≠ []
    ∧ (∀ c ∈ r1, isHostChar1 c = true) ∧ (∀ c ∈ r2, isHostChar2 c = true)

/-- A successful `hostParse` yields a well-shaped group. -/
theorem hostParse_good {l g : List Char} (h : hostParse l = some g) :
    GoodGroup g := by
  simp only [hostParse] at h
  split at h
  · exact absurd h (by simp)
  · rename_i he
    split at h
    · rename_i rest2 heq
      split at h
      · exact absurd h (by simp)
      · rename_i h2
        rw [Option.some.injEq] at h
        refine ⟨l.takeWhile isHostChar1, rest2.takeWhile isHostChar2, h.symm,
          ?_, ?_, ?_⟩
        · intro hn
          exact he (by rw [hn]; rfl)
        · intro c hc; exact List.mem_takeWhile_imp hc
        · intro c hc; exact List.mem_takeWhile_imp hc
    · exact absurd h (by simp)

/-- A successful `tryUrl` yields a well-shaped group. -/
theorem tryUrl_good {l g : List Char} (h : tryUrl l = some g) : GoodGroup g := by
  simp only [tryUrl] at h
  split at h
  · exact absurd h (by simp)
  · rename_i rest _
    split at h
    · split at h
      · rename_i g2 heq
        cases h
        exact hostParse_good heq
      · exact hostParse_good h
    · exact hostParse_good h

/-- A successful URL search yields a well-shaped group. -/
theorem urlSearchList_good : ∀ {l g : List Char},
    urlSearchList l = some g → GoodGroup g := by
  intro l
  induction l with
  | nil => intro g h; exact absurd h (by simp [urlSearchList])
  | cons c t ih =>
    intro g h
    simp only [urlSearchList] at h
    split at h
    · rename_i g2 heq
      cases h
      exact tryUrl_good heq
    · exact ih h

/-- A matched TLD alternative is an element of the alternation list. -/
theorem tldMatch_mem : ∀ {l tld : List Char} {ts : List (List Char)},
    tldMatch l ts = some tld → tld ∈ ts := by
  intro l tld ts
  induction ts with
  | nil => intro h; exact absurd h (by simp [tldMatch])
  | cons w rest ih =>
    intro h
    simp only [tldMatch] at h
    split at h
    · cases h
      exact List.mem_cons_self _ _
    · exact List.mem_cons_of_mem _ (ih h)

/-- Every alternative of the TLD alternation is non-empty and drawn from
`[a-zA-Z0-9.-]`. -/
theorem tldList_good : ∀ t ∈ tldList, t ≠ [] ∧ ∀ c ∈ t, isHostChar2 c = true := by
  decide

/-- A successful bare-domain match yields a well-shaped group. -/
theorem tryDomain_good {prev : Option Char} {l g : List Char}
    (h : tryDomain prev l = some g) : GoodGroup g := by
  simp only [tryDomain] at h
  split at h
  · exact absurd h (by simp)
  · rename_i c t
    split at h
    · exact absurd h (by simp)
    · split at h
      · exact absurd h (by simp)
      · rename_i hb he
        split at h
        · rename_i rest2 heq
          split at h
          · rename_i tld htld
            cases h
            refine ⟨(c :: t).takeWhile isHostChar1, tld, rfl, ?_, ?_, ?_⟩
            · intro hn
              exact he (by rw [hn]; rfl)
            · intro x hx; exact List.mem_takeWhile_imp hx
            · exact (tldList_good tld (tldMatch_mem htld)).2
          · exact absurd h (by simp)
        · exact absurd h (by simp)

/-- A successful bare-domain search yields a well-shaped group. -/
theorem domainSearchList_good : ∀ {l g : List Char} {prev : Option Char},
    domainSearchList prev l = some g → GoodGroup g := by
  intro l
  induction l with
  | nil => intro g prev h; exact absurd h (by simp [domainSearchList])
  | cons c t ih =>
    intro g prev h
    unfold domainSearchList at h
    split at h
    case h_1 g2 heq =>
      cases h
      exact tryDomain_good heq
    case h_2 => exact ih h

/-! ## Claim C10 — non-empty company name when a domain is found -/

/-- `takeWhile` truncates exactly at the first failing element. -/
theorem takeWhile_append_stop (p : Char → Bool) (a : List Char) (b : Char)
    (rest : List Char) (ha : ∀ c ∈ a, p c = true) (hb : p b = false) :
    (a ++ b :: rest).takeWhile p = a := by
  induction a with
  | nil => simp [List.takeWhile_cons, hb]
  | cons c t ih =>
    have hc : p c = true := ha c (List.mem_cons_self _ _)
    simp [List.takeWhile_cons, hc,
      ih (fun x hx => ha x (List.mem_cons_of_mem _ hx))]

/-- A string over a non-empty character list is non-empty. -/
theorem asString_ne_empty {l : List Char} (h : l ≠ []) :
    List.asString l ≠ "" := by
  intro he
  apply h
  have hd := congrArg String.data he
  simpa using hd

/-- `pyTitleList` preserves length. -/
theorem pyTitleList_length : ∀ (l : List Char) (b : Bool),
    (pyTitleList l b).length = l.length
  | [], _ => rfl
  | c :: t, b => by simp [pyTitleList, pyTitleList_length t]

/-- Title-casing a non-empty string gives a non-empty string. -/
theorem pyTitle_ne_of_ne {l : List Char} (h : l ≠ []) :
    pyTitle (List.asString l) ≠ "" := by
  intro he
  have hd : pyTitleList l false = [] := by
    have := congrArg String.data he
    simpa [pyTitle] using this
  have hlen := pyTitleList_length l false
  rw [hd] at hlen
  cases l with
  | nil => exact h rfl
  | cons c t => simp at hlen

/-- A well-shaped group is non-empty. -/
theorem goodGroup_ne_nil {g : List Char} (hg : GoodGroup g) : g ≠ [] := by
  obtain ⟨r1, r2, he, _, _, _⟩ := hg
  subst he
  simp

/-- A well-shaped group contains no slash, so the path split leaves it
unchanged. -/
theorem splitHead_slash_eq (g : String) (hg : GoodGroup g.toList) :
    splitHead '/' g = g := by
  obtain ⟨r1, r2, he, _, ha1, ha2⟩ := hg
  have hall : ∀ c ∈ g.toList, (decide (c ≠ '/')) = true := by
    intro c hc
    rw [he] at hc
    refine decide_eq_true ?_
    intro hcc
    subst hcc
    rcases List.mem_append.mp hc with hm | hm
    · exact absurd (ha1 _ hm) (by decide)
    · rcases List.mem_cons.mp hm with hm2 | hm2
      · exact absurd hm2 (by decide)
      · exact absurd (ha2 _ hm2) (by decide)
  show (g.toList.takeWhile _).asString = g
  rw [List.takeWhile_eq_self_iff.mpr hall]
  rfl

/-- The first label of a well-shaped group title-cases to a non-empty
name. -/
theorem pyTitle_firstLabel_ne (g : String) (hg : GoodGroup g.toList) :
    pyTitle (splitHead '.' g) ≠ "" := by
  obtain ⟨r1, r2, he, h1, ha1, _⟩ := hg
  have hsplit : splitHead '.' g = List.asString r1 := by
    show (g.toList.takeWhile _).asString = _
    rw [he, takeWhile_append_stop _ r1 '.' r2 ?_ (by decide)]
    intro c hc
    refine decide_eq_true ?_
    intro hcc
    subst hcc
    exact absurd (ha1 _ hc) (by decide)
  rw [hsplit]
  exact pyTitle_ne_of_ne h1

/-- C10: whenever `extract_company_info` finds a domain, the returned
company name is non-empty — the cleaned name is used when it is non-empty
and differs from the domain, and otherwise the name is derived by
title-casing the domain's first label, which the matched patterns
guarantee to be non-empty. -/
theorem C10_name_nonempty (text : String) (d : String)
    (h : (extract_company_info text).2 = some d) :
    (extract_company_info text).1 ≠ "" := by
  have main : ∀ g : String, GoodGroup g.toList →
      (match urlSearch text with
        | some x => some x
        | none => domainSearch text) = some g →
      (extract_company_info text).1 ≠ "" := by
    intro g hg hd0
    have hne : g ≠ "" := by
      intro he
      exact goodGroup_ne_nil hg (by rw [he]; rfl)
    have hslash := splitHead_slash_eq g hg
    simp only [extract_company_info, hd0]
    rw [if_pos hne, hslash]
    by_cases hcond : cleanCompanyName text = "" ∨ cleanCompanyName text = g
    · rw [if_pos hcond]
      exact pyTitle_firstLabel_ne g hg
    · rw [if_neg hcond]
      exact (not_or.mp hcond).1
  rcases hu : urlSearch text with _ | g
  · rcases hd : domainSearch text with _ | g
    · simp [extract_company_info, hu, hd] at h
    · have hgl : domainSearchList none text.toList = some g.toList := by
        have hd2 := hd
        unfold domainSearch at hd2
        rcases hmap : domainSearchList none text.toList with _ | gl
        · rw [hmap] at hd2; simp at hd2
        · rw [hmap] at hd2
          simp at hd2
          rw [← hd2]
          rfl
      exact main g (domainSearchList_good hgl) (by rw [hu]; exact hd)
  · have hgl : urlSearchList text.toList = some g.toList := by
      have hu2 := hu
      unfold urlSearch at hu2
      rcases hmap : urlSearchList text.toList with _ | gl
      · rw [hmap] at hu2; simp at hu2
      · rw [hmap] at hu2
        simp at hu2
        rw [← hu2]
        rfl
    exact main g (urlSearchList_good hgl) (by rw [hu])

/-! ## Claim C9 — URL host extraction -/

/-- C10 (witness): the non-empty-name theorem applied at a concrete URL
input. -/
theorem C10_name_nonempty_witness : (extract_company_info "https://acme.com").1 ≠ "" :=
  C10_name_nonempty "https://acme.com" "acme.com" (by decide)

/-- String concatenation concatenates the character lists. -/
theorem str_toList_append (a b : String) :
    (a ++ b).toList = a.toList ++ b.toList := by
  cases a
  cases b
  rfl

/-- The scheme matcher consumes a literal `https://`. -/
theorem schemeSplit_https (r : List Char) :
    schemeSplit ("https://".toList ++ r) = some r := by
  have ht : ("https://".toList ++ r).take 8 = "https://".toList :=
    List.take_left "https://".toList r
  have hd : ("https://".toList ++ r).drop 8 = r :=
    List.drop_left "https://".toList r
  simp only [schemeSplit, ht, if_true, hd]

/-- The scheme matcher consumes a literal `http://` (the `https://` test
fails on it). -/
theorem schemeSplit_http (r : List Char) :
    schemeSplit ("http://".toList ++ r) = some r := by
  have hne : ("http://".toList ++ r).take 8 ≠ "https://".toList := by
    cases r with
    | nil => decide
    | cons c r' =>
      show ('h' :: 't' :: 't' :: 'p' :: ':' :: '/' :: '/' :: c :: r').take 8 ≠ _
      intro heq
      have : (('h' :: 't' :: 't' :: 'p' :: ':' :: '/' :: '/' :: c :: r').take 8).get? 4
          = ("https://".toList).get? 4 := by rw [heq]
      simp [List.get?] at this
  have ht : ("http://".toList ++ r).take 7 = "http://".toList :=
    List.take_left "http://".toList r
  have hd : ("http://".toList ++ r).drop 7 = r :=
    List.drop_left "http://".toList r
  simp only [schemeSplit, hne, if_false, ht, if_true, hd]

/-- A list of the right shape is empty exactly never. -/
theorem isEmpty_false_of_ne {l : List Char} (h : l ≠ []) : l.isEmpty = false := by
  cases l with
  | nil => exact absurd rfl h
  | cons c t => rfl

/-- The host matcher, run at the head of a well-formed host followed by a
boundary, captures exactly the host. -/
theorem hostParse_exact (r1 r2 postL : List Char)
    (h1 : r1 ≠ []) (ha1 : ∀ c ∈ r1, isHostChar1 c = true)
    (h2 : r2 ≠ []) (ha2 : ∀ c ∈ r2, isHostChar2 c = true)
    (hpost : ∀ c, postL.head? = some c → isHostChar2 c = false) :
    hostParse (r1 ++ '.' :: (r2 ++ postL)) = some (r1 ++ '.' :: r2) := by
  have htw : (r1 ++ '.' :: (r2 ++ postL)).takeWhile isHostChar1 = r1 :=
    takeWhile_append_stop _ r1 '.' (r2 ++ postL) ha1 (by decide)
  have htw2 : (r2 ++ postL).takeWhile isHostChar2 = r2 := by
    cases postL with
    | nil =>
      rw [List.append_nil]
      exact List.takeWhile_eq_self_iff.mpr ha2
    | cons c p' => exact takeWhile_append_stop _ r2 c p' ha2 (hpost c rfl)
  simp only [hostParse, htw, isEmpty_false_of_ne h1, Bool.false_eq_true,
    if_false, List.drop_left, htw2, isEmpty_false_of_ne h2]

/-- The whole URL pattern at the head of scheme ++ host ++ boundary
captures exactly the host. -/
theorem tryUrl_exact {schL : List Char} (r1 r2 postL : List Char)
    (hs : schemeSplit (schL ++ (r1 ++ '.' :: (r2 ++ postL)))
      = some (r1 ++ '.' :: (r2 ++ postL)))
    (h1 : r1 ≠ []) (ha1 : ∀ c ∈ r1, isHostChar1 c = true)
    (h2 : r2 ≠ []) (ha2 : ∀ c ∈ r2, isHostChar2 c = true)
    (hpost : ∀ c, postL.head? = some c → isHostChar2 c = false)
    (hw : (r1 ++ '.' :: (r2 ++ postL)).take 4 ≠ "www.".toList) :
    tryUrl (schL ++ (r1 ++ '.' :: (r2 ++ postL))) = some (r1 ++ '.' :: r2) := by
  simp only [tryUrl, hs, hw, if_false]
  exact hostParse_exact r1 r2 postL h1 ha1 h2 ha2 hpost

/-- A host whose first label is not `www` cannot begin with `www.`. -/
theorem take4_ne_www (r1 : List Char) (h1 : r1 ≠ [])
    (ha1 : ∀ c ∈ r1, isHostChar1 c = true) (hnw : r1 ≠ "www".toList)
    (rest : List Char) :
    (r1 ++ '.' :: rest).take 4 ≠ "www.".toList := by
  rcases r1 with _ | ⟨a, _ | ⟨b, _ | ⟨c, _ | ⟨d, t⟩⟩⟩⟩
  · exact absurd rfl h1
  · intro heq
    show False
    have : ('.' : Char) = 'w' := by
      have h2 := congrArg (fun l => List.get? l 1) heq
      simpa using h2
    exact absurd this (by decide)
  · intro heq
    have : ('.' : Char) = 'w' := by
      have h2 := congrArg (fun l => List.get? l 2) heq
      simpa using h2
    exact absurd this (by decide)
  · intro heq
    apply hnw
    have hga := congrArg (fun l => List.get? l 0) heq
    have hgb := congrArg (fun l => List.get? l 1) heq
    have hgc := congrArg (fun l => List.get? l 2) heq
    simp at hga hgb hgc
    rw [hga, hgb, hgc]
    rfl
  · intro heq
    have : d = '.' := by
      have h2 := congrArg (fun l => List.get? l 3) heq
      simpa using h2
    have hd := ha1 d (by simp)
    rw [this] at hd
    exact absurd hd (by decide)

/-- A leftmost search skips positions where the pattern fails. -/
theorem urlSearchList_append (a rest : List Char)
    (h : ∀ n < a.length, tryUrl (List.drop n (a ++ rest)) = none) :
    urlSearchList (a ++ rest) = urlSearchList rest := by
  induction a with
  | nil => rfl
  | cons c t ih =>
    have h0 := h 0 (by simp)
    rw [List.drop_zero] at h0
    show urlSearchList (c :: (t ++ rest)) = _
    rw [urlSearchList, List.cons_append] at *
    simp only [h0]
    exact ih (fun n hn => by
      have hx := h (n + 1) (by simpa using Nat.succ_lt_succ hn)
      simpa using hx)

/-- C9: for every input of the form `pre ++ scheme ++ host ++ post` —
where `scheme` is `https://` or `http://`, `host` is a well-formed
`label.rest` host (label from `[a-zA-Z0-9-]`, rest from `[a-zA-Z0-9.-]`,
both non-empty) not beginning with `www.`, `post` (e.g. a `/path` suffix)
starts with a character that cannot extend the host, and the URL pattern
has no match inside `pre` — `extract_company_info` returns exactly the
host as the domain: any path suffix is excluded from the capture. -/
theorem C9_url_host (pre sch post : String) (r1 r2 : List Char)
    (hsch : sch = "https://" ∨ sch = "http://")
    (h1 : r1 ≠ []) (ha1 : ∀ c ∈ r1, isHostChar1 c = true)
    (h2 : r2 ≠ []) (ha2 : ∀ c ∈ r2, isHostChar2 c = true)
    (hnw : r1 ≠ "www".toList)
    (hpost : ∀ c, post.toList.head? = some c → isHostChar2 c = false)
    (hpre : ∀ n < pre.toList.length,
      tryUrl (List.drop n
        ((pre ++ sch ++ List.asString (r1 ++ '.' :: r2) ++ post).toList)) = none) :
    (extract_company_info (pre ++ sch ++ List.asString (r1 ++ '.' :: r2) ++ post)).2
      = some (List.asString (r1 ++ '.' :: r2)) := by
  have htext :
      (pre ++ sch ++ List.asString (r1 ++ '.' :: r2) ++ post).toList
        = pre.toList ++ (sch.toList ++ (r1 ++ '.' :: (r2 ++ post.toList))) := by
    have hdata : (List.asString (r1 ++ '.' :: r2)).data = r1 ++ '.' :: r2 := rfl
    simp [str_toList_append, hdata]
  have hw' := take4_ne_www r1 h1 ha1 hnw (r2 ++ post.toList)
  have huls :
      urlSearchList
          ((pre ++ sch ++ List.asString (r1 ++ '.' :: r2) ++ post).toList)
        = some (r1 ++ '.' :: r2) := by
    rw [htext]
    rw [urlSearchList_append pre.toList _ ?_]
    · rcases hsch with h | h <;> subst h
      · have hstep : "https://".toList ++ (r1 ++ '.' :: (r2 ++ post.toList))
            = 'h' :: ("ttps://".toList ++ (r1 ++ '.' :: (r2 ++ post.toList))) := rfl
        rw [hstep, urlSearchList, ← hstep,
          tryUrl_exact r1 r2 post.toList (schemeSplit_https _) h1 ha1 h2 ha2
            hpost hw']
      · have hstep : "http://".toList ++ (r1 ++ '.' :: (r2 ++ post.toList))
            = 'h' :: ("ttp://".toList ++ (r1 ++ '.' :: (r2 ++ post.toList))) := rfl
        rw [hstep, urlSearchList, ← hstep,
          tryUrl_exact r1 r2 post.toList (schemeSplit_http _) h1 ha1 h2 ha2
            hpost hw']
    · intro n hn
      have hx := hpre n hn
      rw [htext] at hx
      exact hx
  have hurl :
      urlSearch (pre ++ sch ++ List.asString (r1 ++ '.' :: r2) ++ post)
        = some (List.asString (r1 ++ '.' :: r2)) := by
    unfold urlSearch
    rw [huls]
    rfl
  have hne : List.asString (r1 ++ '.' :: r2) ≠ "" :=
    asString_ne_empty (by simp)
  have hgood : GoodGroup (List.asString (r1 ++ '.' :: r2)).toList :=
    ⟨r1, r2, rfl, h1, ha1, ha2⟩
  have hslash := splitHead_slash_eq _ hgood
  simp only [extract_company_info, hurl]
  rw [if_pos hne, hslash]

/-- C9 (witness): the URL-host theorem applied at
`"see https://acme.com/x now"`. -/
theorem C9_url_host_witness :
    (extract_company_info "see https://acme.com/x now").2 = some "acme.com" :=
  C9_url_host "see " "https://" "/x now" "acme".toList "com".toList
    (Or.inl rfl) (by decide) (by decide) (by decide) (by decide) (by decide)
    (by decide) (by decide)

/-! ## Claims C3 and C5 — staleness scan -/

/-- An emitted candidate always carries a stage that is a key of the
threshold table. -/
theorem processEntry_some_in_table {env : NudgeEnv} {sfid : Nat}
    {opts : List (Int × String)} {ofid : Option Nat} {entry : ListEntry}
    {n : Nudge} (h : processEntry env sfid opts ofid entry = .ok (some n)) :
    (STAGE_THRESHOLDS.lookup n.status).isSome = true := by
  unfold processEntry at h
  rcases hfv : env.getEntryFieldValues entry.id with e | fvs
  · rw [hfv] at h
    exact absurd h (by simp)
  rw [hfv] at h
  simp only [] at h
  rcases hcs : (List.foldl (nudgeFVStep sfid opts ofid) (none, none, []) fvs).1
    with _ | st
  · rw [hcs] at h
    simp at h
  rw [hcs] at h
  simp only [] at h
  by_cases hne : st = ""
  · rw [if_pos hne] at h
    simp at h
  rw [if_neg hne] at h
  rcases hthr : STAGE_THRESHOLDS.lookup st with _ | thr
  · rw [hthr] at h
    simp at h
  rw [hthr] at h
  simp only [] at h
  rcases hdate : entryStatusDate env entry
      (List.foldl (nudgeFVStep sfid opts ofid) (none, none, []) fvs).2.1
    with u | t
  · rw [hdate] at h
    simp at h
  rw [hdate] at h
  simp only [] at h
  by_cases hge : (thr : Int) ≤ Int.fdiv (env.now - t) 86400
  · rw [if_pos hge] at h
    rcases horg : env.getOrganization entry.entity_id with e2 | org
    · rw [horg] at h
      simp at h
    rw [horg] at h
    simp only [] at h
    rw [Except.ok.injEq, Option.some.injEq] at h
    rw [← h]
    simp [mkNudge, hthr]
  · rw [if_neg hge] at h
    simp at h

/-- Elements of the scan's output all arise from a per-entry emission. -/
theorem nudgeLoop_mem {env : NudgeEnv} {sfid : Nat}
    {opts : List (Int × String)} {ofid : Option Nat} :
    ∀ (entries : List ListEntry) (acc res : List Nudge),
      nudgeLoop env sfid opts ofid entries acc = .ok res →
      ∀ n ∈ res, n ∈ acc ∨
        ∃ e ∈ entries, processEntry env sfid opts ofid e = .ok (some n) := by
  intro entries
  induction entries with
  | nil =>
    intro acc res h n hn
    rw [nudgeLoop, Except.ok.injEq] at h
    exact Or.inl (h ▸ hn)
  | cons e rest ih =>
    intro acc res h n hn
    rw [nudgeLoop] at h
    split at h
    · exact absurd h (by simp)
    · rcases ih acc res h n hn with hacc | ⟨e2, he2, hp⟩
      · exact Or.inl hacc
      · exact Or.inr ⟨e2, List.mem_cons_of_mem _ he2, hp⟩
    · rename_i n2 hp2
      rcases ih (acc ++ [n2]) res h n hn with hacc | ⟨e2, he2, hp⟩
      · rcases List.mem_append.mp hacc with h1 | h1
        · exact Or.inl h1
        · rcases List.mem_singleton.mp h1 with rfl
          exact Or.inr ⟨e, List.mem_cons_self _ _, hp2⟩
      · exact Or.inr ⟨e2, List.mem_cons_of_mem _ he2, hp⟩

/-- C3: (1) every candidate returned by the scan carries a stage that is a
key of the threshold table — entries with a stage absent from the table
never produce a candidate, for any dwell time; (2) for an entry whose
decoded stage is a key of the table, whose status timestamp resolves, and
whose organization fetch succeeds, a candidate is emitted exactly when
`days_in_stage = floor((now - statusDate) / 86400)` is at least the
threshold (inclusive boundary). -/
theorem C3_threshold_boundary (env : NudgeEnv) :
    (∀ n ∈ get_deals_needing_nudge env,
      (STAGE_THRESHOLDS.lookup n.status).isSome = true)
    ∧ (∀ (sfid : Nat) (opts : List (Int × String)) (ofid : Option Nat)
        (entry : ListEntry) (fvs : List FieldValue) (st : String) (thr : Nat)
        (t : Int) (org : OrgDetail),
      env.getEntryFieldValues entry.id = .ok fvs →
      (fvs.foldl (nudgeFVStep sfid opts ofid) (none, none, [])).1 = some st →
      st ≠ "" →
      STAGE_THRESHOLDS.lookup st = some thr →
      entryStatusDate env entry
        (fvs.foldl (nudgeFVStep sfid opts ofid) (none, none, [])).2.1 = .ok t →
      env.getOrganization entry.entity_id = .ok org →
      ((∃ n, processEntry env sfid opts ofid entry = .ok (some n)) ↔
        (thr : Int) ≤ Int.fdiv (env.now - t) 86400)) := by
  constructor
  · intro n hn
    unfold get_deals_needing_nudge at hn
    split at hn
    · exact absurd hn (by simp)
    · split at hn
      · rename_i sfido opts ofid _
        split at hn
        · exact absurd hn (by simp)
        · split at hn
          · exact absurd hn (by simp)
          · split at hn
            · exact absurd hn (by simp)
            · rename_i entries _
              split at hn
              · rename_i res hres
                rcases nudgeLoop_mem entries [] res hres n hn with habs | ⟨e, _, hp⟩
                · exact absurd habs (by simp)
                · exact processEntry_some_in_table hp
              · exact absurd hn (by simp)
  · intro sfid opts ofid entry fvs st thr t org hfv hcs hne hthr hdate horg
    unfold processEntry
    rw [hfv]
    simp only [hcs, hne, hthr, hdate, horg, if_false]
    constructor
    · intro ⟨n, hn⟩
      by_contra hlt
      rw [if_neg hlt] at hn
      exact absurd hn (by simp)
    · intro hge
      rw [if_pos hge]
      exact ⟨_, rfl⟩

/-- A concrete scan environment: one entry, stage `Engaged` for 21 days
(exactly the threshold). -/
def envC3 : NudgeEnv :=
  { getListFields := .ok [⟨10, "Status", [⟨1, "Engaged"⟩]⟩, ⟨11, "Owners", []⟩]
    getListEntries := .ok [⟨100, 42, 7, some "T0"⟩]
    getEntryFieldValues := fun _ => .ok [⟨10, .aint 1, some "T1", none⟩]
    getOrganization := fun _ => .ok ⟨7, "Acme", none, []⟩
    parseTs := fun s => if s = "T1" then some 0 else none
    now := 86400 * 21 }

/-- C3 (witness): the threshold theorem applied at `envC3` — the emitted
candidate's stage is in the table, and the entry at exactly the threshold
is emitted. -/
theorem C3_threshold_boundary_witness :
    (STAGE_THRESHOLDS.lookup "Engaged").isSome = true
    ∧ (∃ n, processEntry envC3 10 [(1, "Engaged")] (some 11)
        ⟨100, 42, 7, some "T0"⟩ = .ok (some n)) :=
  ⟨(C3_threshold_boundary envC3).1
      ⟨7, "Acme", "Engaged", 21, "3 weeks", [],
        "https://overture.affinity.co/companies/7"⟩ (by decide),
   ((C3_threshold_boundary envC3).2 10 [(1, "Engaged")] (some 11)
      ⟨100, 42, 7, some "T0"⟩ [⟨10, .aint 1, some "T1", none⟩] "Engaged" 21 0
      ⟨7, "Acme", none, []⟩ rfl (by decide) (by decide) (by decide)
      rfl rfl).mpr (by decide)⟩

/-- A two-entry scan environment whose second entry has an unparseable
status timestamp and an unparseable `created_at`. -/
def envC5both : NudgeEnv :=
  { getListFields := .ok [⟨10, "Status", [⟨1, "Engaged"⟩]⟩, ⟨11, "Owners", []⟩]
    getListEntries := .ok [⟨100, 42, 7, some "T0"⟩, ⟨101, 42, 8, some "BAD0"⟩]
    getEntryFieldValues := fun i =>
      if i = 100 then .ok [⟨10, .aint 1, some "T1", none⟩]
      else .ok [⟨10, .aint 1, some "BAD", none⟩]
    getOrganization := fun _ => .ok ⟨7, "Acme", none, []⟩
    parseTs := fun s => if s = "T1" then some 0 else none
    now := 86400 * 21 }

/-- C5 (counterexample): with only the well-formed entry the scan emits its
candidate, but adding an entry whose status timestamp and `created_at`
both fail to parse aborts the whole scan and loses the other entry's
candidate — a parse failure is neither a silent per-entry skip nor
abort-free. -/
theorem C5_counterexample :
    get_deals_needing_nudge envC3
      = [⟨7, "Acme", "Engaged", 21, "3 weeks", [],
          "https://overture.affinity.co/companies/7"⟩]
    ∧ get_deals_needing_nudge envC5both = [] := by
  decide

/-- If some entry of the list aborts, the whole loop aborts. -/
theorem nudgeLoop_error {env : NudgeEnv} {sfid : Nat}
    {opts : List (Int × String)} {ofid : Option Nat} :
    ∀ (entries : List ListEntry) (acc : List Nudge) (entry : ListEntry),
      entry ∈ entries → processEntry env sfid opts ofid entry = .error () →
      nudgeLoop env sfid opts ofid entries acc = .error () := by
  intro entries
  induction entries with
  | nil =>
    intro acc entry h
    exact absurd h (List.not_mem_nil _)
  | cons e rest ih =>
    intro acc entry hmem hp
    rw [nudgeLoop]
    rcases List.mem_cons.mp hmem with rfl | hmem2
    · simp only [hp]
    · rcases hpe : processEntry env sfid opts ofid e with u | v
      · rfl
      · rcases v with _ | n
        · exact ih acc entry hmem2 hp
        · exact ih (acc ++ [n]) entry hmem2 hp

/-- C5 (amended): an entry whose decoded stage is absent from the
threshold table is skipped without aborting; an entry whose status
timestamp fails to parse is not skipped — the scan falls back to parsing
the entry's `created_at`; and when that fallback parse also fails, the
exception aborts the entire scan, which returns `[]`, losing the
candidates of all other entries. -/
theorem C5_amended (env : NudgeEnv) :
    (∀ (sfid : Nat) (opts : List (Int × String)) (ofid : Option Nat)
        (entry : ListEntry) (fvs : List FieldValue) (st : String),
      env.getEntryFieldValues entry.id = .ok fvs →
      (fvs.foldl (nudgeFVStep sfid opts ofid) (none, none, [])).1 = some st →
      STAGE_THRESHOLDS.lookup st = none →
      processEntry env sfid opts ofid entry = .ok none)
    ∧ (∀ (entry : ListEntry) (u ca : String) (t : Int),
      u ≠ "" → env.parseTs u = none →
      entry.created_at = some ca → env.parseTs ca = some t →
      entryStatusDate env entry (some u) = .ok t)
    ∧ (∀ (fields : List CField) (sfid : Nat) (opts : List (Int × String))
        (ofid : Option Nat) (entries : List ListEntry) (entry : ListEntry),
      env.getListFields = .ok fields →
      nudgeFieldScan fields = (some sfid, opts, ofid) →
      sfid ≠ 0 →
      env.getListEntries = .ok entries →
      entry ∈ entries →
      processEntry env sfid opts ofid entry = .error () →
      get_deals_needing_nudge env = []) := by
  refine ⟨?_, ?_, ?_⟩
  · intro sfid opts ofid entry fvs st hfv hcs hthr
    unfold processEntry
    rw [hfv]
    simp only []
    rw [hcs]
    by_cases hne : st = ""
    · simp [hne]
    · simp [hne, hthr]
  · intro entry u ca t hu hpu hca hpc
    simp [entryStatusDate, hpu, hca, hpc, hu]
  · intro fields sfid opts ofid entries entry hfields hscan hsz hentries hmem hp
    unfold get_deals_needing_nudge
    rw [hfields]
    simp only []
    rw [hscan]
    simp only []
    rw [if_neg hsz, hentries]
    simp only []
    rw [nudgeLoop_error entries [] entry hmem hp]

/-- C5 (witness): the amended theorem applied at the concrete
environments — a not-in-table stage is skipped, a failed status-timestamp
parse falls back to `created_at`, and a doubly-failing entry empties the
scan. -/
theorem C5_amended_witness :
    processEntry envC5both 10 [(1, "Random")] none ⟨101, 42, 8, some "BAD0"⟩
      = .ok none
    ∧ entryStatusDate envC3 ⟨100, 42, 7, some "T1"⟩ (some "BAD") = .ok 0
    ∧ get_deals_needing_nudge envC5both = [] :=
  ⟨(C5_amended envC5both).1 10 [(1, "Random")] none ⟨101, 42, 8, some "BAD0"⟩
      [⟨10, .aint 1, some "BAD", none⟩] "Random" rfl (by decide)
      (by decide),
   (C5_amended envC3).2.1 ⟨100, 42, 7, some "T1"⟩ "BAD" "T1" 0 (by decide)
      (by decide) rfl rfl,
   (C5_amended envC5both).2.2 [⟨10, "Status", [⟨1, "Engaged"⟩]⟩, ⟨11, "Owners", []⟩]
      10 [(1, "Engaged")] (some 11)
      [⟨100, 42, 7, some "T0"⟩, ⟨101, 42, 8, some "BAD0"⟩]
      ⟨101, 42, 8, some "BAD0"⟩ rfl (by decide) (by decide) rfl
      (by decide) rfl⟩

/-! ## Behaviour of the deterministic client -/

/-- The pipeline entry recorded for an organization in a list, if any:
what `check_org_in_list` inspects on the deterministic CRM. -/
def findEntryIn (s : CrmState) (oid L : Nat) : Option ListEntry :=
  (s.entries.filter (fun e => e.entity_id == oid)).find?
    (fun e => e.list_id == L)

/-- The deterministic search call. -/
theorem search_det (term : String) (s : CrmState) :
    detClient.searchOrganization term s = (.ok (detSearch s term), s) := rfl

/-- The deterministic entry creation. -/
theorem add_det (L oid : Nat) (s : CrmState) :
    detClient.addToList L oid s
      = (.ok ⟨s.nextEntryId, L, oid, none⟩,
         { s with entries := s.entries ++ [⟨s.nextEntryId, L, oid, none⟩],
                  nextEntryId := s.nextEntryId + 1,
                  trace := s.trace ++ ["addToList"] }) := rfl

/-- The deterministic organization creation. -/
theorem create_det (name : String) (dom : Option String) (s : CrmState) :
    detClient.createOrganization name dom s
      = (.ok ⟨s.nextOrgId, name, if optTruthy dom then dom else none⟩,
         { s with
             orgs := s.orgs ++
               [⟨s.nextOrgId, name, if optTruthy dom then dom else none⟩],
             nextOrgId := s.nextOrgId + 1,
             trace := s.trace ++ ["createOrganization"] }) := rfl

/-- The deterministic field-value write. -/
theorem sfv_det (fid eid leid : Nat) (v : AVal) (s : CrmState) :
    detClient.setFieldValue fid eid leid v s
      = (.ok v,
         { s with entryFieldVals :=
             assocAppendFV s.entryFieldVals leid ⟨fid, v, none, none⟩,
                  trace := s.trace ++ ["setFieldValue"] }) := rfl

/-- The deterministic person fetch resolves to an empty display name. -/
theorem gon_det (v : AVal) (s : CrmState) :
    get_owner_name_from_id detClient v s = (some "", s) := rfl

/-- The existence check on the deterministic CRM, positive case. -/
theorem check_det_some {s : CrmState} {oid L : Nat} {en : ListEntry}
    (h : findEntryIn s oid L = some en) :
    check_org_in_list detClient oid L s = ((true, some en), s) := by
  unfold check_org_in_list
  have h2 : (detOrgDetail s oid).list_entries.find? (fun e => e.list_id == L)
      = some en := h
  show (match (detOrgDetail s oid).list_entries.find? (fun e => e.list_id == L) with
    | some entry => ((true, some entry), s)
    | none => ((false, none), s)) = ((true, some en), s)
  rw [h2]

/-- The existence check on the deterministic CRM, negative case. -/
theorem check_det_none {s : CrmState} {oid L : Nat}
    (h : findEntryIn s oid L = none) :
    check_org_in_list detClient oid L s = ((false, none), s) := by
  unfold check_org_in_list
  have h2 : (detOrgDetail s oid).list_entries.find? (fun e => e.list_id == L)
      = none := h
  show (match (detOrgDetail s oid).list_entries.find? (fun e => e.list_id == L) with
    | some entry => ((true, some entry), s)
    | none => ((false, none), s)) = ((false, none), s)
  rw [h2]

/-- `get_stage_name` on the deterministic CRM leaves the state
untouched. -/
theorem get_stage_name_det_snd (oid L : Nat) (s : CrmState) :
    (get_stage_name detClient oid L s).2 = s := by
  show (match findStageField s.listFields with
    | none => ("Unknown", s)
    | some f =>
      if f.id = 0 then ("Unknown", s)
      else
        (stageFromValues f.id (buildOptions [] f.dropdown_options)
          ((s.orgFieldVals.lookup oid).getD []), s)).2 = s
  split
  · rfl
  · split
    · rfl
    · rfl

/-- One owners/pass-reason step on the deterministic CRM leaves the state
untouched. -/
theorem ownerPassStep_det_snd (a : List String × List String) (s : CrmState)
    (fv : FieldValue) : (ownerPassStep detClient ((a.1, a.2), s) fv).2 = s := by
  unfold ownerPassStep
  simp only []
  split
  · rw [gon_det]
    simp
  · rfl

/-- The owners/pass-reason fold on the deterministic CRM leaves the state
untouched. -/
theorem foldl_ownerPass_snd :
    ∀ (fvs : List FieldValue) (a : List String × List String) (s : CrmState),
      (fvs.foldl (ownerPassStep detClient) (a, s)).2 = s := by
  intro fvs
  induction fvs with
  | nil => intro a s; rfl
  | cons fv t ih =>
    intro a s
    rw [List.foldl_cons]
    have h := ownerPassStep_det_snd a s fv
    have h2 : ownerPassStep detClient ((a.1, a.2), s) fv
        = ((ownerPassStep detClient ((a.1, a.2), s) fv).1, s) := by
      have he := Prod.mk.eta (p := ownerPassStep detClient ((a.1, a.2), s) fv)
      rw [h] at he
      exact he.symm
    rw [show (a, s) = ((a.1, a.2), s) from rfl, h2]
    exact ih _ s

/-- `get_list_entry_details` on the deterministic CRM leaves the state
untouched. -/
theorem get_list_entry_details_det_snd (oid L : Nat) (s : CrmState) :
    (get_list_entry_details detClient oid L s).2 = s := by
  show (match (detOrgDetail s oid).list_entries.find?
      (fun (e : ListEntry) => e.list_id == L) with
    | none => (([], []), s)
    | some entry =>
      (((s.entryFieldVals.lookup entry.id).getD []).foldl
        (ownerPassStep detClient) (([], []), s)
        : (List String × List String) × CrmState)).2 = s
  split
  · rfl
  · exact foldl_ownerPass_snd _ _ _

/-- The shared read-only `exists` branch of `process_company` on the
deterministic CRM: when the picked organization already has an entry in
the list, the call returns the composed `exists` payload and leaves the
CRM state unchanged. -/
theorem process_company_exists (s : CrmState) (L : Nat) (st : String)
    (dom : Option String) (m : Bool) (uid : Option String) (org : Org)
    (en : ListEntry)
    (hpick : pickOrganization (detSearch s (termOf st dom)) st dom = some org)
    (hin : findEntryIn s org.id L = some en) :
    process_company detClient L st dom m uid s
      = (existsResult org.name (get_stage_name detClient org.id L s).1
          (get_list_entry_details detClient org.id L s).1.1
          (get_list_entry_details detClient org.id L s).1.2, s) := by
  unfold process_company
  rw [search_det]
  simp only []
  rw [hpick]
  simp only []
  rw [check_det_some hin]
  simp only []
  have hst : get_stage_name detClient org.id L s
      = ((get_stage_name detClient org.id L s).1, s) := by
    have he := Prod.mk.eta (p := get_stage_name detClient org.id L s)
    rw [get_stage_name_det_snd] at he
    exact he.symm
  rw [hst]
  simp only []
  have hdt : get_list_entry_details detClient org.id L s
      = ((get_list_entry_details detClient org.id L s).1, s) := by
    have he := Prod.mk.eta (p := get_list_entry_details detClient org.id L s)
    rw [get_list_entry_details_det_snd] at he
    exact he.symm
  rw [hdt]

/-- The best-effort owner write never changes the organization table. -/
theorem setOwner_orgs (oid leid : Nat) (uid : Option String) (s : CrmState) :
    (setOwner detClient oid leid uid s).orgs = s.orgs := by
  unfold setOwner
  rcases uid with _ | u
  · rfl
  · simp only []
    by_cases hu : u = ""
    · rw [if_pos hu]
    · rw [if_neg hu]
      rcases hl : SLACK_TO_AFFINITY_PERSON.lookup u with _ | pid
      · rfl
      · rfl

/-- The best-effort owner write never changes the entry table. -/
theorem setOwner_entries (oid leid : Nat) (uid : Option String) (s : CrmState) :
    (setOwner detClient oid leid uid s).entries = s.entries := by
  unfold setOwner
  rcases uid with _ | u
  · rfl
  · simp only []
    by_cases hu : u = ""
    · rw [if_pos hu]
    · rw [if_neg hu]
      rcases hl : SLACK_TO_AFFINITY_PERSON.lookup u with _ | pid
      · rfl
      · rfl

/-- The `added` branch of `process_company` on the deterministic CRM:
when the picked organization has no entry yet, the call reports `added`,
leaves the organizations unchanged, and appends exactly one entry linking
the organization to the list. -/
theorem process_company_added (s : CrmState) (L : Nat) (st : String)
    (dom : Option String) (m : Bool) (uid : Option String) (org : Org)
    (hpick : pickOrganization (detSearch s (termOf st dom)) st dom = some org)
    (hnotin : findEntryIn s org.id L = none) :
    (process_company detClient L st dom m uid s).1.status = "added"
    ∧ (process_company detClient L st dom m uid s).2.orgs = s.orgs
    ∧ (process_company detClient L st dom m uid s).2.entries
        = s.entries ++ [⟨s.nextEntryId, L, org.id, none⟩] := by
  unfold process_company
  rw [search_det]
  simp only []
  rw [hpick]
  simp only []
  rw [check_det_none hnotin]
  simp only []
  rw [add_det]
  simp only []
  cases m
  · exact ⟨rfl, by simp [setOwner_orgs], by simp [setOwner_entries]⟩
  · rw [sfv_det]
    simp only []
    exact ⟨rfl, by simp [setOwner_orgs], by simp [setOwner_entries]⟩

/-- The `created` branch of `process_company` on the deterministic CRM:
when no organization is picked, the call reports `created`, appends the
new organization, and appends exactly one entry linking it to the list. -/
theorem process_company_created (s : CrmState) (L : Nat) (st : String)
    (dom : Option String) (m : Bool) (uid : Option String)
    (hpick : pickOrganization (detSearch s (termOf st dom)) st dom = none) :
    (process_company detClient L st dom m uid s).1.status = "created"
    ∧ (process_company detClient L st dom m uid s).2.orgs
        = s.orgs ++ [⟨s.nextOrgId, st, if optTruthy dom then dom else none⟩]
    ∧ (process_company detClient L st dom m uid s).2.entries
        = s.entries ++ [⟨s.nextEntryId, L, s.nextOrgId, none⟩] := by
  unfold process_company
  rw [search_det]
  simp only []
  rw [hpick]
  simp only []
  rw [create_det]
  simp only []
  rw [add_det]
  simp only []
  cases m
  · exact ⟨rfl, by simp [setOwner_orgs], by simp [setOwner_entries]⟩
  · rw [sfv_det]
    simp only []
    exact ⟨rfl, by simp [setOwner_orgs], by simp [setOwner_entries]⟩

/-- The selection returns `none` only on an empty candidate list (the
`orgs[0]` fallback covers every non-empty list). -/
theorem pickOrganization_eq_none {orgs : List Org} {st : String}
    {dom : Option String} (h : pickOrganization orgs st dom = none) :
    orgs = [] := by
  cases orgs with
  | nil => rfl
  | cons o t =>
    unfold pickOrganization at h
    split at h
    · exact absurd h (by simp)
    · exact absurd h (by simp [List.head?])

/-- On a singleton candidate list the selection returns its element. -/
theorem pickOrganization_singleton (o : Org) (st : String)
    (dom : Option String) : pickOrganization [o] st dom = some o := by
  unfold pickOrganization
  rw [pickLoop_eq_find]
  by_cases hm : orgMatches st dom o = true
  · simp [List.find?, hm]
  · simp [List.find?, hm]

/-- `isPrefixOf` is reflexive. -/
theorem isPrefixOf_self : ∀ l : List Char, l.isPrefixOf l = true := by
  intro l
  induction l with
  | nil => rfl
  | cons c t ih => simp [List.isPrefixOf, ih]

/-- Every list contains itself. -/
theorem listContains_self : ∀ l : List Char, listContains l l = true := by
  intro l
  cases l with
  | nil => rfl
  | cons c t => simp [listContains, isPrefixOf_self]

/-- Case-insensitive containment is reflexive. -/
theorem strContainsCI_self (x : String) : strContainsCI x x = true :=
  listContains_self _

/-- The search depends only on the organization table. -/
theorem detSearch_congr (s s2 : CrmState) (h : s2.orgs = s.orgs)
    (term : String) : detSearch s2 term = detSearch s term := by
  unfold detSearch
  rw [h]

/-- A freshly created organization (name = search term, domain = the
normalized domain) is a hit for the search term used by `process_company`. -/
theorem newOrg_matches (st : String) (dom : Option String) (nid : Nat) :
    orgMatchesTerm (termOf st dom)
      ⟨nid, st, if optTruthy dom then dom else none⟩ = true := by
  rcases dom with _ | d
  · simp [termOf, orgMatchesTerm, optTruthy, strContainsCI_self]
  · by_cases hd : d = ""
    · simp [termOf, hd, orgMatchesTerm, optTruthy, strContainsCI_self]
    · simp [termOf, hd, orgMatchesTerm, optTruthy, strContainsCI_self]

/-! ## Claim C7 — the `exists` branch is read-only and missed-independent -/

/-- C7: when the resolved organization already has a PipelineEntry in the
target list, `process_company` performs no mutating CRM call (the final
CRM state — entry tables, field values and mutation trace alike — is
exactly the initial one), reports `status = exists` with the stage, and
its result does not depend on the `is_missed` flag. -/
theorem C7_exists_readonly (s : CrmState) (L : Nat) (st : String)
    (dom : Option String) (uid : Option String) (org : Org) (en : ListEntry)
    (hpick : pickOrganization (detSearch s (termOf st dom)) st dom = some org)
    (hin : findEntryIn s org.id L = some en) :
    (∀ m, (process_company detClient L st dom m uid s).1.status = "exists"
      ∧ (process_company detClient L st dom m uid s).1.stage
          = some (get_stage_name detClient org.id L s).1
      ∧ (process_company detClient L st dom m uid s).2 = s)
    ∧ process_company detClient L st dom true uid s
        = process_company detClient L st dom false uid s := by
  have h1 := fun m => process_company_exists s L st dom m uid org en hpick hin
  refine ⟨fun m => ?_, ?_⟩
  · rw [h1 m]
    exact ⟨rfl, rfl, rfl⟩
  · rw [h1 true, h1 false]

/-- C7 (witness): a CRM state where `Foo` already has an entry in list 42;
the call reports `exists`, leaves the state unchanged, and the missed flag
is irrelevant. -/
theorem C7_exists_readonly_witness :
    (process_company detClient 42 "Foo" (some "foo.io") true none
        ⟨[⟨1, "Foo", some "foo.io"⟩], [⟨50, 42, 1, none⟩], [], [], [], 2, 51,
          []⟩).1.status = "exists"
    ∧ process_company detClient 42 "Foo" (some "foo.io") true none
        ⟨[⟨1, "Foo", some "foo.io"⟩], [⟨50, 42, 1, none⟩], [], [], [], 2, 51,
          []⟩
      = process_company detClient 42 "Foo" (some "foo.io") false none
        ⟨[⟨1, "Foo", some "foo.io"⟩], [⟨50, 42, 1, none⟩], [], [], [], 2, 51,
          []⟩ :=
  ⟨((C7_exists_readonly
      ⟨[⟨1, "Foo", some "foo.io"⟩], [⟨50, 42, 1, none⟩], [], [], [], 2, 51, []⟩
      42 "Foo" (some "foo.io") none ⟨1, "Foo", some "foo.io"⟩ ⟨50, 42, 1, none⟩
      (by decide) (by decide)).1 true).1,
   (C7_exists_readonly
      ⟨[⟨1, "Foo", some "foo.io"⟩], [⟨50, 42, 1, none⟩], [], [], [], 2, 51, []⟩
      42 "Foo" (some "foo.io") none ⟨1, "Foo", some "foo.io"⟩ ⟨50, 42, 1, none⟩
      (by decide) (by decide)).2⟩

/-! ## Claim C1 — idempotency of reconciliation -/

/-- C1: on the deterministic CRM, whenever a first `process_company` call
created a PipelineEntry (status `added` or `created`), a second call with
identical arguments against the resulting state reports `exists` and
leaves the CRM state — entries, organizations, field values and the
mutation trace — exactly unchanged: no second entry is ever created for
the same (organization, list) pair, because the existence check that runs
before any create call now finds the entry. -/
theorem C1_idempotent (s : CrmState) (L : Nat) (st : String)
    (dom : Option String) (m : Bool) (uid : Option String)
    (h : (process_company detClient L st dom m uid s).1.status = "added"
       ∨ (process_company detClient L st dom m uid s).1.status = "created") :
    (process_company detClient L st dom m uid
        ((process_company detClient L st dom m uid s).2)).1.status = "exists"
    ∧ (process_company detClient L st dom m uid
        ((process_company detClient L st dom m uid s).2)).2
      = (process_company detClient L st dom m uid s).2 := by
  rcases hpick : pickOrganization (detSearch s (termOf st dom)) st dom with _ | org
  · -- created path
    obtain ⟨hstat, horgs, hentries⟩ :=
      process_company_created s L st dom m uid hpick
    have hempty := pickOrganization_eq_none hpick
    unfold detSearch at hempty
    have hsearch :
        detSearch ((process_company detClient L st dom m uid s).2)
          (termOf st dom)
          = [⟨s.nextOrgId, st, if optTruthy dom then dom else none⟩] := by
      unfold detSearch
      rw [horgs, List.filter_append, hempty]
      simp [List.filter, newOrg_matches]
    have hpick2 :
        pickOrganization
          (detSearch ((process_company detClient L st dom m uid s).2)
            (termOf st dom)) st dom
          = some ⟨s.nextOrgId, st, if optTruthy dom then dom else none⟩ := by
      rw [hsearch]
      exact pickOrganization_singleton _ _ _
    have hfind : ∃ en,
        findEntryIn ((process_company detClient L st dom m uid s).2)
          s.nextOrgId L = some en := by
      unfold findEntryIn
      rw [hentries, List.filter_append]
      have hE : List.filter (fun e => e.entity_id == s.nextOrgId)
          [(⟨s.nextEntryId, L, s.nextOrgId, none⟩ : ListEntry)]
          = [⟨s.nextEntryId, L, s.nextOrgId, none⟩] := by
        simp [List.filter]
      rw [hE, List.find?_append]
      rcases hf : List.find? (fun e => e.list_id == L)
          (List.filter (fun e => e.entity_id == s.nextOrgId) s.entries)
        with _ | e1
      · refine ⟨⟨s.nextEntryId, L, s.nextOrgId, none⟩, ?_⟩
        rw [hf]
        simp [List.find?]
      · refine ⟨e1, ?_⟩
        rw [hf]
        rfl
    obtain ⟨en, hen⟩ := hfind
    have h2 := process_company_exists _ L st dom m uid _ en hpick2 hen
    rw [h2]
    exact ⟨rfl, rfl⟩
  · rcases hin : findEntryIn s org.id L with _ | en0
    · -- added path
      obtain ⟨hstat, horgs, hentries⟩ :=
        process_company_added s L st dom m uid org hpick hin
      have hsearch := detSearch_congr s
        ((process_company detClient L st dom m uid s).2) horgs (termOf st dom)
      have hpick2 :
          pickOrganization
            (detSearch ((process_company detClient L st dom m uid s).2)
              (termOf st dom)) st dom = some org := by
        rw [hsearch]
        exact hpick
      have hfind :
          findEntryIn ((process_company detClient L st dom m uid s).2)
            org.id L = some ⟨s.nextEntryId, L, org.id, none⟩ := by
        unfold findEntryIn
        rw [hentries, List.filter_append]
        have hE : List.filter (fun e => e.entity_id == org.id)
            [(⟨s.nextEntryId, L, org.id, none⟩ : ListEntry)]
            = [⟨s.nextEntryId, L, org.id, none⟩] := by
          simp [List.filter]
        rw [hE, List.find?_append]
        have h1 : List.find? (fun e => e.list_id == L)
            (List.filter (fun e => e.entity_id == org.id) s.entries)
            = none := hin
        rw [h1]
        simp [List.find?]
      have h2 := process_company_exists _ L st dom m uid org _ hpick2 hfind
      rw [h2]
      exact ⟨rfl, rfl⟩
    · -- the first call already reported exists, contradicting `h`
      have h2 := process_company_exists s L st dom m uid org en0 hpick hin
      rw [h2] at h
      rcases h with h | h <;> simp [existsResult] at h

/-- C1 (witness): from the empty CRM, a first call creates `Acme` and its
entry; the second identical call reports `exists` and changes nothing. -/
theorem C1_idempotent_witness :
    (process_company detClient 42 "Acme" (some "acme.com") false none
        ((process_company detClient 42 "Acme" (some "acme.com") false none
          ⟨[], [], [], [], [], 1, 1, []⟩).2)).1.status = "exists"
    ∧ (process_company detClient 42 "Acme" (some "acme.com") false none
        ((process_company detClient 42 "Acme" (some "acme.com") false none
          ⟨[], [], [], [], [], 1, 1, []⟩).2)).2
      = (process_company detClient 42 "Acme" (some "acme.com") false none
          ⟨[], [], [], [], [], 1, 1, []⟩).2 :=
  C1_idempotent ⟨[], [], [], [], [], 1, 1, []⟩ 42 "Acme" (some "acme.com")
    false none (Or.inr (by decide))
